import Mathlib

/-!
# notify_irc: a verification development

A shallow embedding of `main.go` (the one source file of the notifier) and
theorems about its connection-descriptor checks, its alert normalisation,
the message it composes and the IRC frame it encodes.

Conventions of the embedding

* A Go `string` or `[]byte` is a `List Char`: the sequence of its code points.
  This is exact for text that is valid UTF-8, which is what the program is
  fed in practice; every byte the program singles out (CR, LF, `/`, `#`, `:`,
  `%`, ...) is ASCII.
* `complain` prints to standard error and ends the process with exit code 2.
  A stage that can complain returns `Except Complaint _`, the error naming
  the call site of `complain`.
* Results of the standard library that depend on the machine (`os.Hostname`,
  `time.Unix(..).String()`, `url.Parse`, the dial itself) are inputs of the
  model.  Small pure library functions the program relies on
  (`strings.TrimSpace`, `bytes.Split`, `url.ParseQuery`, `net.SplitHostPort`,
  `net.JoinHostPort`, the one regular expression) are transcribed.
-/

namespace NotifyIrc

/-- A Go string (or byte slice), as the list of its code points. -/
abbrev Str := List Char

/-! ## Library functions used by `run` -/

/-- Go `unicode.IsSpace`: the Latin-1 cases `\t \n \v \f \r`, space, U+0085,
U+00A0, and beyond Latin-1 the code points with the White_Space property. -/
def isSpace (c : Char) : Bool :=
  let n := c.toNat
  (9 ≤ n && n ≤ 13) || n == 0x20 || n == 0x85 || n == 0xA0 || n == 0x1680 ||
    (0x2000 ≤ n && n ≤ 0x200A) || n == 0x2028 || n == 0x2029 || n == 0x202F ||
    n == 0x205F || n == 0x3000

/-- Go `strings.TrimSpace` / `bytes.TrimSpace`: drop the leading white space,
then the trailing white space. -/
def TrimSpace (s : Str) : Str :=
  (s.dropWhile isSpace).rdropWhile isSpace

/-- Go `bytes.ReplaceAll(s, []byte{old}, nil)` for a one-byte `old`: every
occurrence of `old` is deleted. -/
def ReplaceAllNil (s : Str) (old : Char) : Str :=
  s.filter (fun c => c != old)

/-- Go `bytes.Split(s, []byte{sep})` for a one-byte separator: the pieces
between the separators, in order; one piece more than there are separators
(so a single empty piece for the empty input). -/
def Split (sep : Char) : Str → List Str
  | [] => [[]]
  | c :: cs =>
    if c = sep then [] :: Split sep cs
    else
      match Split sep cs with
      | [] => [[c]]
      | l :: ls => (c :: l) :: ls

/-- Go `strings.Cut(s, sep)` for a one-byte separator: the text before the
first separator and the text after it; without a separator, all of `s` and
the empty string. -/
def Cut (sep : Char) : Str → Str × Str
  | [] => ([], [])
  | c :: cs =>
    if c = sep then ([], cs)
    else ((c :: (Cut sep cs).1), (Cut sep cs).2)

/-- Source function `empty`: `strings.TrimSpace(s) == ""`. -/
def empty (s : Str) : Bool :=
  (TrimSpace s).isEmpty

/-- Go `bytealg.IndexByteString`: index of the first occurrence of `c`, `none`
standing for the result `-1`. -/
def IndexByte : Str → Char → Option Nat
  | [], _ => none
  | x :: xs, c => if x = c then some 0 else (IndexByte xs c).map (· + 1)

/-- Go `bytealg.LastIndexByteString`: index of the last occurrence of `c`,
`none` standing for the result `-1`. -/
def LastIndexByte : Str → Char → Option Nat
  | [], _ => none
  | x :: xs, c =>
    match LastIndexByte xs c with
    | some i => some (i + 1)
    | none => if x = c then some 0 else none

/-- The common tail of Go `net.SplitHostPort`: the two bracket checks on
`hostport[j:]` and `hostport[k:]`, then the port `hostport[i+1:]`. -/
def splitHostPortTail (hostport host : Str) (j k i : Nat) : Option (Str × Str) :=
  if '[' ∈ hostport.drop j then none          -- unexpected [ in address
  else if ']' ∈ hostport.drop k then none     -- unexpected ] in address
  else some (host, hostport.drop (i + 1))

/-- Go `net.SplitHostPort`; `none` stands for every `AddrError` (the program
only tests `errHP != nil`). -/
def SplitHostPort (hostport : Str) : Option (Str × Str) :=
  match LastIndexByte hostport ':' with
  | none => none                               -- missing port in address
  | some i =>
    if hostport.head? = some '[' then
      match IndexByte hostport ']' with
      | none => none                           -- missing ] in address
      | some e =>
        if e + 1 = hostport.length then none   -- missing port in address
        else if e + 1 = i then
          splitHostPortTail hostport ((hostport.take e).drop 1) 1 (e + 1) i
        else none                              -- too many colons / missing port
    else
      if ':' ∈ hostport.take i then none       -- too many colons in address
      else splitHostPortTail hostport (hostport.take i) 0 0 i

/-- Go `net.JoinHostPort`: a host with a colon is put in brackets. -/
def JoinHostPort (host port : Str) : Str :=
  if ':' ∈ host then '[' :: (host ++ "]:".toList ++ port)
  else host ++ ':' :: port

/-- Go `ishex` of `net/url`. -/
def ishex (c : Char) : Bool :=
  let n := c.toNat
  (48 ≤ n && n ≤ 57) || (97 ≤ n && n ≤ 102) || (65 ≤ n && n ≤ 70)

/-- Go `unhex` of `net/url`. -/
def unhex (c : Char) : Nat :=
  let n := c.toNat
  if 48 ≤ n ∧ n ≤ 57 then n - 48
  else if 97 ≤ n ∧ n ≤ 102 then n - 97 + 10
  else if 65 ≤ n ∧ n ≤ 70 then n - 65 + 10
  else 0

/-- Go `url.QueryUnescape`: `%XX` becomes the byte `XX`, `+` becomes a space;
`none` stands for the `EscapeError` of a `%` not followed by two hex digits.
A decoded byte is kept as one code point: the program only compares the
results with the ASCII literals `insecure` and `1`. -/
def QueryUnescape : Str → Option Str
  | [] => some []
  | c :: rest =>
    if c = '%' then
      match rest with
      | a :: b :: rest2 =>
        if ishex a && ishex b then
          (QueryUnescape rest2).map (fun t => Char.ofNat (16 * unhex a + unhex b) :: t)
        else none
      | _ => none
    else if c = '+' then (QueryUnescape rest).map (fun t => ' ' :: t)
    else (QueryUnescape rest).map (fun t => c :: t)

/-- Go `url.Values` together with the error of `url.ParseQuery`: the
key/value pairs in the order they were appended, and whether `err != nil`. -/
structure QueryResult where
  values : List (Str × Str)
  err : Bool
  deriving DecidableEq, Repr

/-- One round of the loop of Go `url.parseQuery`, for the piece `seg` cut off
at the next `&`. -/
def parseQuerySegment (acc : QueryResult) (seg : Str) : QueryResult :=
  if ';' ∈ seg then { acc with err := true }   -- invalid semicolon separator
  else if seg = [] then acc
  else
    match QueryUnescape (Cut '=' seg).1 with
    | none => { acc with err := true }
    | some key =>
      match QueryUnescape (Cut '=' seg).2 with
      | none => { acc with err := true }
      | some value => { acc with values := acc.values ++ [(key, value)] }

/-- Go `url.ParseQuery`: the loop cuts the query at each `&`; an empty piece
is skipped, so running over the pieces of `Split` is the same loop. -/
def ParseQuery (query : Str) : QueryResult :=
  (Split '&' query).foldl parseQuerySegment ⟨[], false⟩

/-- Go `url.Values.Get`: the first value stored under `key`, else `""`. -/
def Get (vs : List (Str × Str)) (key : Str) : Str :=
  match vs.find? (fun kv => kv.1 == key) with
  | some kv => kv.2
  | none => []

/-- One alternative of the path expression: `/<mode>/<name>` with `<name>` one
or more characters other than `/`, anchored at both ends.  The result is
the pair of the two capture groups. -/
def matchPathMode (mode path : Str) : Option (Str × Str) :=
  if ('/' :: (mode ++ ['/'])).isPrefixOf path then
    if path.drop (mode.length + 2) ≠ [] ∧ '/' ∉ path.drop (mode.length + 2) then
      some (mode, path.drop (mode.length + 2))
    else none
  else none

/-- Source variable `ircUrlPathStructure` with `FindStringSubmatch`:
the regular expression `\A/(direct|channel)/([^/]+)\z`.  `none` is the `nil`
result, `some (m1, m2)` are `match[1]` and `match[2]`. -/
def ircUrlPathStructure (path : Str) : Option (Str × Str) :=
  match matchPathMode "direct".toList path with
  | some m => some m
  | none => matchPathMode "channel".toList path

/-! ## The program -/

/-- The command-line flags of `run` (lines 28-40), after `flag.Parse`. -/
structure Flags where
  icingaTimet : Int
  hName : Str
  hDisplayName : Str
  hActionUrl : Str
  hState : Str
  hOutput : Str
  sName : Str
  sDisplayName : Str
  sActionUrl : Str
  sState : Str
  sOutput : Str
  deriving DecidableEq, Repr

/-- The call sites of `complain` in `run`, in source order.  Each one prints
its message and ends the process with exit code 2. -/
inductive Complaint
  | missingIrcUrl        -- line 50
  | serviceIncomplete    -- line 59
  | hostIncomplete       -- line 67
  | nothingGiven         -- line 74
  | badUrl               -- line 83
  | badQuery             -- line 88
  | badProtocol          -- line 102
  | missingUser          -- line 107
  | missingHost          -- line 111
  | badPath              -- line 116
  deriving DecidableEq, Repr

deriving instance DecidableEq for Except

/-- The locals of `run` that describe the alert once lines 53-79 have run:
`reportService`, `state`, `output`, and the values the flag pointers then
point to. -/
structure Alert where
  reportService : Bool
  state : Str
  output : Str
  hName : Str
  hDisplayName : Str
  hActionUrl : Str
  sName : Str
  sDisplayName : Str
  sActionUrl : Str
  deriving DecidableEq, Repr

/-- Lines 53-75 of `run`: the choice between a service and a host report. -/
def checkFields (f : Flags) : Except Complaint Alert :=
  if !empty f.sName || !empty f.sDisplayName || !empty f.sActionUrl ||
      !empty f.sState || !empty f.sOutput then
    if empty f.hName || empty f.sName || empty f.sState then
      .error .serviceIncomplete
    else
      .ok { reportService := true, state := f.sState, output := f.sOutput,
            hName := f.hName, hDisplayName := f.hDisplayName, hActionUrl := f.hActionUrl,
            sName := f.sName,
            sDisplayName := if empty f.sDisplayName then f.sName else f.sDisplayName,
            sActionUrl := f.sActionUrl }
  else if !empty f.hName || !empty f.hDisplayName || !empty f.hActionUrl ||
      !empty f.hState || !empty f.hOutput then
    if empty f.hName || empty f.hState then
      .error .hostIncomplete
    else
      .ok { reportService := false, state := f.hState, output := f.hOutput,
            hName := f.hName, hDisplayName := f.hDisplayName, hActionUrl := f.hActionUrl,
            sName := f.sName, sDisplayName := f.sDisplayName, sActionUrl := f.sActionUrl }
  else
    .error .nothingGiven

/-- Lines 53-79 of `run`: `checkFields`, then the default of the host display
name (lines 77-79). -/
def normalize (f : Flags) : Except Complaint Alert :=
  match checkFields f with
  | .error c => .error c
  | .ok a => .ok (if empty a.hDisplayName then { a with hDisplayName := a.hName } else a)

/-- Go `url.Userinfo`. -/
structure Userinfo where
  username : Str
  password : Str
  passwordSet : Bool
  deriving DecidableEq, Repr

/-- The fields of Go `url.URL` that `run` reads.  `User` is a pointer that is
nil when the URL has no user information. -/
structure URL where
  Scheme : Str
  User : Option Userinfo
  Host : Str
  Path : Str
  RawQuery : Str
  deriving DecidableEq, Repr

/-- Go `(*Userinfo).Username`: `""` on a nil receiver. -/
def Username (u : Option Userinfo) : Str :=
  match u with
  | none => []
  | some ui => ui.username

/-- Go `(*Userinfo).Password`, first result: `""` on a nil receiver. -/
def Password (u : Option Userinfo) : Str :=
  match u with
  | none => []
  | some ui => ui.password

/-- The locals of `run` set by the descriptor checks of lines 86-117. -/
structure Checked where
  ircUrlQuery : List (Str × Str)
  ssl : Bool
  defaultPort : Str
  user : Str
  match1 : Str
  match2 : Str
  deriving DecidableEq, Repr

/-- Lines 94-103 of `run`: the switch on the scheme, giving `ssl` and
`defaultPort`; `none` is the `default:` branch. -/
def schemeSwitch (scheme : Str) : Option (Bool × Str) :=
  if scheme = "irc".toList then some (false, "6667".toList)
  else if scheme = "ircs".toList then some (true, "6697".toList)
  else none

/-- Lines 86-117 of `run`, on the URL that `url.Parse` returned. -/
def checkUrl (ircUrl : URL) : Except Complaint Checked :=
  if (ParseQuery ircUrl.RawQuery).err then .error .badQuery
  else
    match schemeSwitch ircUrl.Scheme with
    | none => .error .badProtocol
    | some sd =>
      if empty (Username ircUrl.User) then .error .missingUser
      else if empty ircUrl.Host then .error .missingHost
      else
        match ircUrlPathStructure ircUrl.Path with
        | none => .error .badPath
        | some m =>
          .ok { ircUrlQuery := (ParseQuery ircUrl.RawQuery).values, ssl := sd.1,
                defaultPort := sd.2, user := Username ircUrl.User,
                match1 := m.1, match2 := m.2 }

/-- Lines 162-165 of `run`: the recipient, with `#` in front for a channel. -/
def recipient (c : Checked) : Str :=
  if c.match1 = "channel".toList then '#' :: c.match2 else c.match2

/-- Lines 191-195 of `run`: `host` and `port` as they are dialled. -/
def hostPort (ircUrl : URL) (defaultPort : Str) : Str × Str :=
  match SplitHostPort ircUrl.Host with
  | some hp => hp
  | none => (ircUrl.Host, defaultPort)

/-- Lines 129-133 of `run`. -/
def pMark (state : Str) : Str :=
  if state = "UP".toList ∨ state = "OK".toList then ".".toList else "!".toList

/-- Lines 135-151 of `run`: the message buffer `msg`.  `hostname` is the local
host name after the fallback of lines 121-127, `when` is the text of
`time.Unix(*icingaTimet, 0)`. -/
def compose (a : Alert) (hostname when : Str) : Str :=
  (if a.reportService then
    "***** Service monitoring on ".toList ++ hostname ++ " *****".toList ++
    ("\n\n".toList ++ a.sDisplayName ++ " on ".toList ++ a.hDisplayName ++ " is ".toList ++
      a.state ++ pMark a.state) ++
    ("\n\nWhen: ".toList ++ when ++ "\nHost: ".toList ++ a.hName ++ " ".toList ++
      a.hActionUrl ++ "\nService: ".toList ++ a.sName ++ " ".toList ++ a.sActionUrl)
  else
    "***** Host monitoring on ".toList ++ hostname ++ " *****".toList ++
    ("\n\n".toList ++ a.hDisplayName ++ " is ".toList ++ a.state ++ pMark a.state) ++
    ("\n\nWhen: ".toList ++ when ++ "\nHost: ".toList ++ a.hName ++ " ".toList ++
      a.hActionUrl)) ++
  ("\nInfo:\n\n".toList ++ a.output)

/-- Line 169 of `run`: the range expression of the loop,
`bytes.Split(bytes.ReplaceAll(bytes.TrimSpace(msg), CR, nil), LF)`. -/
def bodyLines (msg : Str) : List Str :=
  Split '\n' (ReplaceAllNil (TrimSpace msg) '\r')

/-- Lines 170-176 of `run`: one round of the loop, appending to `buf`. -/
def writePrivmsg (recipient : Str) (buf : Str) (line : Str) : Str :=
  buf ++ ("PRIVMSG ".toList ++ recipient ++ " :".toList) ++
    (if line.length < 1 then ['.'] else line) ++ "\r\n".toList

/-- Lines 153-160 of `run`: the buffer `buf` after the registration lines
have been written. -/
def registration (user pass : Str) : Str :=
  let buf : Str := []
  let buf := if pass ≠ [] then buf ++ ("PASS ".toList ++ pass ++ "\r\n".toList) else buf
  let buf := buf ++ ("NICK ".toList ++ user ++ "\r\n".toList)
  buf ++ ("USER ".toList ++ user ++ " 0.0.0.0 0.0.0.0 ".toList ++ user ++ "\r\n".toList)

/-- Lines 153-179 of `run`: the frame buffer `buf`, built by successive
writes. -/
def encode (user pass recipient msg : Str) : Str :=
  let buf := registration user pass
  let buf := (bodyLines msg).foldl (writePrivmsg recipient) buf
  buf ++ "QUIT\r\n".toList

/-- The frame `run` writes for a checked descriptor and a normalised alert:
lines 135-179. -/
def frame (ircUrl : URL) (c : Checked) (a : Alert) (hostname when : Str) : Str :=
  encode c.user (Password ircUrl.User) (recipient c) (compose a hostname when)

/-- What `run` observes of its surroundings. -/
structure World where
  flags : Flags
  now : Int                      -- time.Now().Unix()
  timeString : Int → Str         -- time.Unix(t, 0).String()
  IRC_URL : Str                  -- os.Getenv("IRC_URL")
  urlParse : Str → Option URL    -- url.Parse; none for an error
  hostname : Option Str          -- os.Hostname(); none for an error
  dialOk : Bool                  -- errDl == nil
  writeOk : Bool                 -- io.Copy(conn, buf) succeeds
  readOk : Bool                  -- io.Copy(os.Stdout, conn) succeeds

/-- The effects `run` attempts, in order. -/
inductive Effect
  | complain (c : Complaint)                         -- message on stderr, exit 2
  | stderr                                           -- an error text on stderr
  | dial (tls insecureSkipVerify : Bool) (address : Str)
  | write (frame : Str)
  | read
  | close
  deriving DecidableEq, Repr

/-- Lines 181-215 of `run`: dial, write the frame, copy the answer, close. -/
def deliver (w : World) (ircUrl : URL) (c : Checked) (buf : Str) (exitSuccess : Nat)
    (trace : List Effect) : Nat × List Effect :=
  let hp := hostPort ircUrl c.defaultPort
  let insecureSkipVerify := c.ssl && (Get c.ircUrlQuery "insecure".toList == "1".toList)
  let trace := trace ++ [Effect.dial c.ssl insecureSkipVerify (JoinHostPort hp.1 hp.2)]
  if !w.dialOk then (1, trace ++ [Effect.stderr])
  else if !w.writeOk then (1, trace ++ [Effect.write buf, Effect.stderr, Effect.close])
  else if !w.readOk then
    (1, trace ++ [Effect.write buf, Effect.read, Effect.stderr, Effect.close])
  else (exitSuccess, trace ++ [Effect.write buf, Effect.read, Effect.close])

/-- Source function `run`: the exit code of the process and the effects it
attempted.  A `complain` ends the run with code 2 on the spot. -/
def run (w : World) : Nat × List Effect :=
  let icingaTimet := if w.flags.icingaTimet = 0 then w.now else w.flags.icingaTimet
  if empty w.IRC_URL then (2, [Effect.complain .missingIrcUrl])
  else
    match normalize w.flags with
    | .error c => (2, [Effect.complain c])
    | .ok a =>
      match w.urlParse w.IRC_URL with
      | none => (2, [Effect.complain .badUrl])
      | some ircUrl =>
        match checkUrl ircUrl with
        | .error c => (2, [Effect.complain c])
        | .ok c =>
          let buf (hostname : Str) := frame ircUrl c a hostname (w.timeString icingaTimet)
          match w.hostname with
          | none => deliver w ircUrl c (buf "(unknown)".toList) 1 [Effect.stderr]
          | some hostname => deliver w ircUrl c (buf hostname) 0 []

/-! ## Notions of the specification, used to state the theorems -/

/-- The pieces of a byte stream between its CR LF pairs: what a reader of the
stream takes for its lines.  A stream that ends in CR LF has a last, empty
piece. -/
def splitCRLF : Str → List Str
  | [] => [[]]
  | [c] => [[c]]
  | c :: d :: rest =>
    if c = '\r' ∧ d = '\n' then [] :: splitCRLF rest
    else
      match splitCRLF (d :: rest) with
      | [] => [[c]]
      | l :: ls => (c :: l) :: ls

/-- One `PRIVMSG` line as section 4.4 of the specification words it, without
its terminator: `PRIVMSG <recipient> :<line>`, an empty line being rendered
as a single `.`. -/
def specPrivmsg (rcpt line : Str) : Str :=
  "PRIVMSG ".toList ++ rcpt ++ " :".toList ++ (if line = [] then ".".toList else line)

/-- The protocol lines of section 4.4 of the specification, in its order and
without terminators: `PASS` only for a non-empty password, `NICK`, `USER`,
one `PRIVMSG` for each of `lines`, `QUIT`. -/
def specLines (user pass rcpt : Str) (lines : List Str) : List Str :=
  (if pass = [] then [] else ["PASS ".toList ++ pass]) ++
  ["NICK ".toList ++ user,
   "USER ".toList ++ user ++ " 0.0.0.0 0.0.0.0 ".toList ++ user] ++
  lines.map (specPrivmsg rcpt) ++
  ["QUIT".toList]

/-- The invariant of section 4.4 for a frame and the lines it is meant to
carry: cutting the frame at its CR LF pairs gives these lines (and the empty
rest after the last terminator), and no line holds a CR or an LF. -/
def LinesClean (frame : Str) (lines : List Str) : Prop :=
  splitCRLF frame = lines ++ [[]] ∧ ∀ l ∈ lines, '\r' ∉ l ∧ '\n' ∉ l

instance (frame : Str) (lines : List Str) : Decidable (LinesClean frame lines) := by
  unfold LinesClean
  infer_instance

/-- The faults of a descriptor as section 4.1 of the specification lists
them for a URL that parsed: a scheme other than `irc` and `ircs`, a blank
user, a blank host, a path that is not `/direct/<name>` or `/channel/<name>`
with `<name>` one or more characters other than `/`. -/
def statedFaults (ircUrl : URL) : Prop :=
  (ircUrl.Scheme ≠ "irc".toList ∧ ircUrl.Scheme ≠ "ircs".toList) ∨
  empty (Username ircUrl.User) = true ∨
  empty ircUrl.Host = true ∨
  ¬ ∃ name : Str, name ≠ [] ∧ '/' ∉ name ∧
      (ircUrl.Path = "/direct/".toList ++ name ∨ ircUrl.Path = "/channel/".toList ++ name)

/-! ## Sample inputs -/

/-- The URL that `url.Parse` returns for `irc://bot@irc.example/channel/alerts`. -/
def urlAlerts : URL :=
  { Scheme := "irc".toList,
    User := some { username := "bot".toList, password := [], passwordSet := false },
    Host := "irc.example".toList, Path := "/channel/alerts".toList, RawQuery := [] }

/-- The locals `checkUrl` sets for `urlAlerts`. -/
def checkedAlerts : Checked :=
  { ircUrlQuery := [], ssl := false, defaultPort := "6667".toList, user := "bot".toList,
    match1 := "channel".toList, match2 := "alerts".toList }

/-- The flags `-host.name h1 -host.state DOWN -host.output "ping failed"`. -/
def flagsHostDown : Flags :=
  { icingaTimet := 0, hName := "h1".toList, hDisplayName := [], hActionUrl := [],
    hState := "DOWN".toList, hOutput := "ping failed".toList,
    sName := [], sDisplayName := [], sActionUrl := [], sState := [], sOutput := [] }

/-- The alert `normalize` yields for `flagsHostDown`. -/
def alertHostDown : Alert :=
  { reportService := false, state := "DOWN".toList, output := "ping failed".toList,
    hName := "h1".toList, hDisplayName := "h1".toList, hActionUrl := [],
    sName := [], sDisplayName := [], sActionUrl := [] }

/-- The URL that `url.Parse` returns for
`irc://bot%0D%0AQUIT@irc.example/channel/alerts`: the user information is
percent-decoded, so the user name holds a CR LF. -/
def urlInjected : URL :=
  { Scheme := "irc".toList,
    User := some { username := "bot\r\nQUIT".toList, password := [], passwordSet := false },
    Host := "irc.example".toList, Path := "/channel/alerts".toList, RawQuery := [] }

/-- The locals `checkUrl` sets for `urlInjected`. -/
def checkedInjected : Checked :=
  { ircUrlQuery := [], ssl := false, defaultPort := "6667".toList,
    user := "bot\r\nQUIT".toList, match1 := "channel".toList, match2 := "alerts".toList }

/-- The flags `-host.name h1 -service.name db -service.state CRITICAL`. -/
def flagsServiceDb : Flags :=
  { icingaTimet := 0, hName := "h1".toList, hDisplayName := [], hActionUrl := [],
    hState := [], hOutput := [],
    sName := "db".toList, sDisplayName := [], sActionUrl := [],
    sState := "CRITICAL".toList, sOutput := [] }

/-- The alert `normalize` yields for `flagsServiceDb`. -/
def alertServiceDb : Alert :=
  { reportService := true, state := "CRITICAL".toList, output := [],
    hName := "h1".toList, hDisplayName := "h1".toList, hActionUrl := [],
    sName := "db".toList, sDisplayName := "db".toList, sActionUrl := [] }

/-- The URL that `url.Parse` returns for `ircs://bot@irc.example:7000/direct/ops`. -/
def urlWithPort : URL :=
  { Scheme := "ircs".toList,
    User := some { username := "bot".toList, password := [], passwordSet := false },
    Host := "irc.example:7000".toList, Path := "/direct/ops".toList, RawQuery := [] }

/-- The locals `checkUrl` sets for `urlWithPort`. -/
def checkedWithPort : Checked :=
  { ircUrlQuery := [], ssl := true, defaultPort := "6697".toList, user := "bot".toList,
    match1 := "direct".toList, match2 := "ops".toList }

/-- The URL that `url.Parse` returns for `irc://bot@:6667/direct/x`: the host
part is the port alone. -/
def urlNoHost : URL :=
  { Scheme := "irc".toList,
    User := some { username := "bot".toList, password := [], passwordSet := false },
    Host := ":6667".toList, Path := "/direct/x".toList, RawQuery := [] }

/-- The locals `checkUrl` sets for `urlNoHost`. -/
def checkedNoHost : Checked :=
  { ircUrlQuery := [], ssl := false, defaultPort := "6667".toList, user := "bot".toList,
    match1 := "direct".toList, match2 := "x".toList }

/-- The URL that `url.Parse` returns for `irc://bot@irc.example/room/ops`. -/
def urlRoomOps : URL :=
  { urlAlerts with Path := "/room/ops".toList }

/-- A world for `run`: the given flags and parsed URL, a host name lookup that
succeeds with `mon1`, the clock at 1700000000, a server that accepts the
connection and closes it in order. -/
def worldOf (flags : Flags) (ircUrl : URL) : World :=
  { flags := flags, now := 1700000000, timeString := fun _ => "T".toList,
    IRC_URL := "irc://...".toList, urlParse := fun _ => some ircUrl,
    hostname := some "mon1".toList, dialOk := true, writeOk := true, readOk := true }

/-- Whether an effect is a network dial. -/
def isDial : Effect → Bool
  | .dial _ _ _ => true
  | _ => false

/-- Every validation of `run` passes: `IRC_URL` is not blank, the alert
fields are accepted, the URL parses, its query parses and it has none of
the faults of a descriptor. -/
def validated (w : World) : Prop :=
  empty w.IRC_URL = false ∧ (∃ a, normalize w.flags = .ok a) ∧
  ∃ u, w.urlParse w.IRC_URL = some u ∧ (ParseQuery u.RawQuery).err = false ∧ ¬ statedFaults u

/-- The dial `run` attempts for a checked descriptor: lines 181-197. -/
def dialOf (ircUrl : URL) (c : Checked) : Effect :=
  Effect.dial c.ssl (c.ssl && (Get c.ircUrlQuery "insecure".toList == "1".toList))
    (JoinHostPort (hostPort ircUrl c.defaultPort).1 (hostPort ircUrl c.defaultPort).2)

/-- The URL that `url.Parse` returns for
`ircs://bot@irc.example/channel/alerts?insecure=1`. -/
def urlInsecure : URL :=
  { Scheme := "ircs".toList,
    User := some { username := "bot".toList, password := [], passwordSet := false },
    Host := "irc.example".toList, Path := "/channel/alerts".toList,
    RawQuery := "insecure=1".toList }

/-- The locals `checkUrl` sets for `urlInsecure`. -/
def checkedInsecure : Checked :=
  { ircUrlQuery := [("insecure".toList, "1".toList)], ssl := true,
    defaultPort := "6697".toList, user := "bot".toList,
    match1 := "channel".toList, match2 := "alerts".toList }

/-- The accept/reject decision of the normalisation and the scope it
chooses: the complaint, or `reportService`. -/
def verdict (f : Flags) : Except Complaint Bool :=
  match normalize f with
  | .error c => .error c
  | .ok a => .ok a.reportService

/-- `s2` is `s1`, or `s1` is only white space and `s2` is the empty string. -/
def blanked (s1 s2 : Str) : Prop :=
  s2 = s1 ∨ ((∀ c ∈ s1, isSpace c = true) ∧ s2 = [])

/-- The flags `-host.name h1 -host.state DOWN` with `-service.name` two spaces. -/
def flagsBlankService : Flags :=
  { icingaTimet := 0, hName := "h1".toList, hDisplayName := [], hActionUrl := [],
    hState := "DOWN".toList, hOutput := [],
    sName := "  ".toList, sDisplayName := [], sActionUrl := [], sState := [], sOutput := [] }

/-- The banner line of section 4.3 of the specification:
`***** <Host|Service> monitoring on <local-name> *****`. -/
def specBanner (a : Alert) (hostname : Str) : Str :=
  "***** ".toList ++ (if a.reportService then "Service".toList else "Host".toList) ++
    " monitoring on ".toList ++ hostname ++ " *****".toList

/-- The status line of section 4.3 of the specification:
`<serviceDisplayName> on <hostDisplayName> is <state><punct>` for a service
report, `<hostDisplayName> is <state><punct>` for a host report. -/
def specStatus (a : Alert) : Str :=
  if a.reportService then
    a.sDisplayName ++ " on ".toList ++ a.hDisplayName ++ " is ".toList ++ a.state ++ pMark a.state
  else
    a.hDisplayName ++ " is ".toList ++ a.state ++ pMark a.state

/-- The last line before `Info:` in the message: the `Service:` line of a
service report, the `Host:` line of a host report. -/
def labelBeforeInfo (a : Alert) : Str :=
  if a.reportService then "Service: ".toList ++ a.sName ++ " ".toList ++ a.sActionUrl
  else "Host: ".toList ++ a.hName ++ " ".toList ++ a.hActionUrl

/-- The protocol line of the end-to-end property, without its terminator:
`PRIVMSG #alerts :***** Host monitoring on <localname> *****`. -/
def bannerLine (L : Str) : Str :=
  "PRIVMSG #alerts :***** Host monitoring on ".toList ++ L ++ " *****".toList

/-- The host part `host` carries the explicit port `p` after the host `h`: it
is `h:p` with neither colon nor bracket in `h` and `p`, or `[h]:p` with no
bracket in `h` and neither colon nor bracket in `p`. -/
def hostWithPort (host h p : Str) : Prop :=
  (host = h ++ ':' :: p ∧ ':' ∉ h ∧ '[' ∉ h ∧ ']' ∉ h ∧ ':' ∉ p ∧ '[' ∉ p ∧ ']' ∉ p) ∨
  (host = '[' :: (h ++ ']' :: ':' :: p) ∧ '[' ∉ h ∧ ']' ∉ h ∧
    ':' ∉ p ∧ '[' ∉ p ∧ ']' ∉ p)

/-- The URL that `url.Parse` returns for `irc://bot@a:b:7000/direct/x`: the text
after the last colon of the host part is a port, the colon before it is
kept in the host part. -/
def urlColons : URL :=
  { Scheme := "irc".toList,
    User := some { username := "bot".toList, password := [], passwordSet := false },
    Host := "a:b:7000".toList, Path := "/direct/x".toList, RawQuery := [] }

/-- The locals `checkUrl` sets for `urlColons`. -/
def checkedColons : Checked :=
  { ircUrlQuery := [], ssl := false, defaultPort := "6667".toList, user := "bot".toList,
    match1 := "direct".toList, match2 := "x".toList }

/-- The flags `-host.name h1 -host.state DOWN -host.output "ping failed"` with a
host display name of two lines, `web LF 01`. -/
def flagsTwoLineName : Flags :=
  { flagsHostDown with hDisplayName := "web\n01".toList }

/-- The alert `normalize` yields for `flagsTwoLineName`. -/
def alertTwoLineName : Alert :=
  { alertHostDown with hDisplayName := "web\n01".toList }

/-! ## Lemmas on the library functions -/

theorem foldl_writePrivmsg (r : Str) (ls : List Str) (buf : Str) :
    ls.foldl (writePrivmsg r) buf = buf ++ (ls.map (writePrivmsg r [])).flatten := by
  induction ls generalizing buf with
  | nil => simp
  | cons l ls ih =>
    rw [List.foldl_cons, ih]
    simp [writePrivmsg, List.append_assoc]

theorem encode_eq (user pass r msg : Str) :
    encode user pass r msg =
      registration user pass ++ ((bodyLines msg).map (writePrivmsg r [])).flatten ++
        "QUIT\r\n".toList := by
  simp only [encode, foldl_writePrivmsg]

theorem Split_ne_nil (sep : Char) (s : Str) : Split sep s ≠ [] := by
  cases s with
  | nil => simp [Split]
  | cons c cs =>
    simp only [Split]
    split
    · simp
    · split <;> simp

theorem Split_cons_ne (sep c : Char) (cs : Str) (h : c ≠ sep) :
    ∃ l ls, Split sep cs = l :: ls ∧ Split sep (c :: cs) = (c :: l) :: ls := by
  cases hs : Split sep cs with
  | nil => exact absurd hs (Split_ne_nil sep cs)
  | cons l ls =>
    refine ⟨l, ls, rfl, ?_⟩
    simp [Split, h, hs]

theorem Split_length (sep : Char) (s : Str) : (Split sep s).length = s.count sep + 1 := by
  induction s with
  | nil => simp [Split]
  | cons c cs ih =>
    by_cases h : c = sep
    · subst h
      simp [Split, ih]
    · obtain ⟨l, ls, h1, h2⟩ := Split_cons_ne sep c cs h
      rw [h2, List.count_cons_of_ne (Ne.symm h), ← ih, h1]
      simp

theorem Split_not_mem (sep : Char) (s : Str) : ∀ l ∈ Split sep s, sep ∉ l := by
  induction s with
  | nil => simp [Split]
  | cons c cs ih =>
    by_cases h : c = sep
    · subst h
      intro l hl
      simp only [Split, if_true, List.mem_cons] at hl
      rcases hl with rfl | hl
      · simp
      · exact ih l hl
    · obtain ⟨l0, ls, h1, h2⟩ := Split_cons_ne sep c cs h
      rw [h2]
      rw [h1] at ih
      intro l hl
      simp only [List.mem_cons] at hl
      rcases hl with rfl | hl
      · intro hm
        simp only [List.mem_cons] at hm
        rcases hm with rfl | hm
        · exact h rfl
        · exact ih l0 (by simp) hm
      · exact ih l (by simp [hl])

theorem Split_intercalate (sep : Char) (s : Str) :
    List.intercalate [sep] (Split sep s) = s := by
  induction s with
  | nil => simp [Split, List.intercalate]
  | cons c cs ih =>
    by_cases h : c = sep
    · subst h
      have hne := Split_ne_nil c cs
      cases hs : Split c cs with
      | nil => exact absurd hs hne
      | cons l ls =>
        rw [hs] at ih
        simp only [Split, if_true, hs]
        simp [List.intercalate, List.intersperse] at ih ⊢
        exact ih
    · obtain ⟨l, ls, h1, h2⟩ := Split_cons_ne sep c cs h
      rw [h2]
      rw [h1] at ih
      cases ls with
      | nil => simp [List.intercalate] at ih ⊢; exact ih
      | cons l2 ls2 => simp [List.intercalate, List.intersperse] at ih ⊢; exact ih

theorem Split_subset (sep : Char) (s : Str) : ∀ l ∈ Split sep s, ∀ c ∈ l, c ∈ s := by
  induction s with
  | nil => simp [Split]
  | cons c cs ih =>
    by_cases h : c = sep
    · subst h
      intro l hl x hx
      simp only [Split, if_true, List.mem_cons] at hl
      rcases hl with rfl | hl
      · simp at hx
      · exact List.mem_cons_of_mem _ (ih l hl x hx)
    · obtain ⟨l0, ls, h1, h2⟩ := Split_cons_ne sep c cs h
      rw [h2]
      rw [h1] at ih
      intro l hl x hx
      simp only [List.mem_cons] at hl
      rcases hl with rfl | hl
      · simp only [List.mem_cons] at hx
        rcases hx with rfl | hx
        · simp
        · exact List.mem_cons_of_mem _ (ih l0 (by simp) x hx)
      · exact List.mem_cons_of_mem _ (ih l (by simp [hl]) x hx)

theorem bodyLines_clean (msg : Str) : ∀ l ∈ bodyLines msg, '\r' ∉ l ∧ '\n' ∉ l := by
  intro l hl
  refine ⟨?_, Split_not_mem _ _ l hl⟩
  intro hr
  have := Split_subset _ _ l hl _ hr
  simp [ReplaceAllNil] at this

theorem bodyLines_length (msg : Str) :
    (bodyLines msg).length = (TrimSpace msg).count '\n' + 1 := by
  simp only [bodyLines, Split_length, ReplaceAllNil]
  rw [List.count_filter]
  decide

theorem splitCRLF_cons_ne (c : Char) (s : Str) (h : c ≠ '\r') (hs : s ≠ []) :
    splitCRLF (c :: s) =
      match splitCRLF s with
      | [] => [[c]]
      | l :: ls => (c :: l) :: ls := by
  cases s with
  | nil => exact absurd rfl hs
  | cons d rest => simp [splitCRLF, h]

theorem splitCRLF_append (l rest : Str) (h : '\r' ∉ l) :
    splitCRLF (l ++ '\r' :: '\n' :: rest) = l :: splitCRLF rest := by
  induction l with
  | nil => simp [splitCRLF]
  | cons c l ih =>
    have hc : c ≠ '\r' := fun e => h (by simp [e])
    have hl : '\r' ∉ l := fun e => h (List.mem_cons_of_mem _ e)
    rw [List.cons_append, splitCRLF_cons_ne c _ hc (by simp), ih hl]

theorem splitCRLF_flatten (ls : List Str) (h : ∀ l ∈ ls, '\r' ∉ l) :
    splitCRLF (ls.map (fun l => l ++ "\r\n".toList)).flatten = ls ++ [[]] := by
  induction ls with
  | nil => simp [splitCRLF]
  | cons l ls ih =>
    have h1 : '\r' ∉ l := h l (by simp)
    have h2 : ∀ l ∈ ls, '\r' ∉ l := fun x hx => h x (List.mem_cons_of_mem _ hx)
    simp only [List.map_cons, List.flatten_cons, List.append_assoc]
    have e : "\r\n".toList = ['\r', '\n'] := rfl
    rw [e] at ih ⊢
    simp only [List.cons_append, List.nil_append]
    rw [splitCRLF_append l _ h1, ih h2]

theorem TrimSpace_decompose (s : Str) :
    ∃ pre post, s = pre ++ TrimSpace s ++ post ∧
      (∀ c ∈ pre, isSpace c = true) ∧ (∀ c ∈ post, isSpace c = true) := by
  refine ⟨s.takeWhile isSpace, (s.dropWhile isSpace).rtakeWhile isSpace, ?_, ?_, ?_⟩
  · have h1 := List.takeWhile_append_dropWhile isSpace s
    have h2 : (s.dropWhile isSpace).rdropWhile isSpace ++ (s.dropWhile isSpace).rtakeWhile isSpace
        = s.dropWhile isSpace := by
      have := List.takeWhile_append_dropWhile isSpace (s.dropWhile isSpace).reverse
      have h3 := congrArg List.reverse this
      simp only [List.reverse_append, List.reverse_reverse] at h3
      exact h3
    simp only [TrimSpace, List.append_assoc, h2, h1]
  · intro c hc
    exact List.mem_takeWhile_imp hc
  · intro c hc
    exact List.mem_rtakeWhile_imp hc

theorem TrimSpace_head (s : Str) (c : Char) (h : (TrimSpace s).head? = some c) :
    isSpace c = false := by
  have hp : TrimSpace s <+: s.dropWhile isSpace := List.rdropWhile_prefix _ _
  obtain ⟨t, ht⟩ := hp
  obtain ⟨ys, hys⟩ := List.head?_eq_some_iff.1 h
  have hd : (s.dropWhile isSpace).head? = some c := by
    rw [← ht, hys]; rfl
  have := List.head?_dropWhile_not isSpace s
  rw [hd] at this
  simpa using this

theorem TrimSpace_getLast (s : Str) (c : Char) (h : (TrimSpace s).getLast? = some c) :
    isSpace c = false := by
  have hne : TrimSpace s ≠ [] := by
    intro e; rw [e] at h; simp at h
  have := List.rdropWhile_last_not isSpace (s.dropWhile isSpace) hne
  rw [List.getLast?_eq_getLast _ hne] at h
  simp only [TrimSpace] at h
  injection h with h
  rw [h] at this
  simpa using this

/-! ## Lemmas on the program -/

theorem writePrivmsg_nil (r l : Str) :
    writePrivmsg r [] l = specPrivmsg r l ++ "\r\n".toList := by
  cases l <;> simp [writePrivmsg, specPrivmsg]

theorem encode_eq_specLines (user pass r msg : Str) :
    encode user pass r msg =
      ((specLines user pass r (bodyLines msg)).map (fun l => l ++ "\r\n".toList)).flatten := by
  rw [encode_eq]
  have h : (bodyLines msg).map (writePrivmsg r []) =
      ((bodyLines msg).map (specPrivmsg r)).map (fun l => l ++ "\r\n".toList) := by
    simp [List.map_map, Function.comp_def, writePrivmsg_nil]
  rw [h]
  by_cases hp : pass = []
  · simp [registration, specLines, hp, List.append_assoc]
  · simp [registration, specLines, hp, List.append_assoc]

theorem matchPathMode_some (mode path m n : Str) :
    matchPathMode mode path = some (m, n) ↔
      m = mode ∧ n ≠ [] ∧ '/' ∉ n ∧ path = '/' :: (mode ++ '/' :: n) := by
  unfold matchPathMode
  constructor
  · intro h
    split at h
    · rename_i hpre
      split at h
      · rename_i hn
        simp only [Option.some.injEq, Prod.mk.injEq] at h
        obtain ⟨rfl, rfl⟩ := h
        refine ⟨rfl, hn.1, hn.2, ?_⟩
        have := List.prefix_iff_eq_append.1 (List.isPrefixOf_iff_prefix.1 hpre)
        have hl : ('/' :: (mode ++ ['/'])).length = mode.length + 2 := by simp
        rw [hl] at this
        rw [← this]
        simp
      · exact absurd h (by simp)
    · exact absurd h (by simp)
  · rintro ⟨rfl, hn, hs, rfl⟩
    have hpre : ('/' :: (m ++ ['/'])).isPrefixOf ('/' :: (m ++ '/' :: n)) = true := by
      rw [List.isPrefixOf_iff_prefix]
      exact ⟨n, by simp⟩
    have hd : List.drop (m.length + 2) ('/' :: (m ++ '/' :: n)) = n := by
      have : '/' :: (m ++ '/' :: n) = ('/' :: (m ++ ['/'])) ++ n := by simp
      rw [this]
      have hl : m.length + 2 = ('/' :: (m ++ ['/'])).length := by simp
      rw [hl, List.drop_left]
    rw [if_pos hpre, hd, if_pos ⟨hn, hs⟩]

theorem ircUrlPathStructure_some (path m n : Str) :
    ircUrlPathStructure path = some (m, n) ↔
      (m = "direct".toList ∨ m = "channel".toList) ∧ n ≠ [] ∧ '/' ∉ n ∧
        path = '/' :: (m ++ '/' :: n) := by
  unfold ircUrlPathStructure
  constructor
  · intro h
    split at h
    · rename_i x hx
      injection h with h
      subst h
      obtain ⟨h1, h2, h3, h4⟩ := (matchPathMode_some _ _ _ _).1 hx
      exact ⟨Or.inl h1, h2, h3, by rw [h4, h1]⟩
    · obtain ⟨h1, h2, h3, h4⟩ := (matchPathMode_some _ _ _ _).1 h
      exact ⟨Or.inr h1, h2, h3, by rw [h4, h1]⟩
  · rintro ⟨hm | hm, h2, h3, h4⟩
    · have := (matchPathMode_some "direct".toList path m n).2 ⟨hm, h2, h3, by rw [h4, hm]⟩
      rw [this]
    · have hnot : matchPathMode "direct".toList path = none := by
        cases hd : matchPathMode "direct".toList path with
        | none => rfl
        | some x =>
          obtain ⟨x1, x2⟩ := x
          obtain ⟨_, _, _, h5⟩ := (matchPathMode_some _ _ _ _).1 hd
          rw [h4, hm, show "channel".toList = ['c', 'h', 'a', 'n', 'n', 'e', 'l'] from rfl,
            show "direct".toList = ['d', 'i', 'r', 'e', 'c', 't'] from rfl] at h5
          simp at h5
      rw [hnot]
      exact (matchPathMode_some "channel".toList path m n).2 ⟨hm, h2, h3, by rw [h4, hm]⟩

theorem checkUrl_ok (ircUrl : URL) (c : Checked) (h : checkUrl ircUrl = .ok c) :
    (ParseQuery ircUrl.RawQuery).err = false ∧
    schemeSwitch ircUrl.Scheme = some (c.ssl, c.defaultPort) ∧
    c.user = Username ircUrl.User ∧ empty c.user = false ∧ empty ircUrl.Host = false ∧
    ircUrlPathStructure ircUrl.Path = some (c.match1, c.match2) ∧
    c.ircUrlQuery = (ParseQuery ircUrl.RawQuery).values := by
  unfold checkUrl at h
  split at h
  · exact absurd h (by simp)
  · rename_i hq
    split at h
    · exact absurd h (by simp)
    · rename_i sd hsd
      split at h
      · exact absurd h (by simp)
      · rename_i hu
        split at h
        · exact absurd h (by simp)
        · rename_i hh
          split at h
          · exact absurd h (by simp)
          · rename_i m hm
            injection h with h
            subst h
            simp at hq hu hh
            exact ⟨hq, hsd, rfl, hu, hh, hm, rfl⟩

theorem specPrivmsg_clean (rcpt l : Str) (hr : '\r' ∉ rcpt ∧ '\n' ∉ rcpt)
    (hl : '\r' ∉ l ∧ '\n' ∉ l) :
    '\r' ∉ specPrivmsg rcpt l ∧ '\n' ∉ specPrivmsg rcpt l := by
  unfold specPrivmsg
  have e1 : "PRIVMSG ".toList = ['P', 'R', 'I', 'V', 'M', 'S', 'G', ' '] := rfl
  have e2 : " :".toList = [' ', ':'] := rfl
  have e3 : ".".toList = ['.'] := rfl
  rw [e1, e2, e3]
  by_cases h : l = []
  · simp [h, hr.1, hr.2]
  · simp [h, hr.1, hr.2, hl.1, hl.2]

theorem specLines_clean (user pass rcpt : Str) (ls : List Str)
    (hu : '\r' ∉ user ∧ '\n' ∉ user) (hp : '\r' ∉ pass ∧ '\n' ∉ pass)
    (hr : '\r' ∉ rcpt ∧ '\n' ∉ rcpt) (hls : ∀ l ∈ ls, '\r' ∉ l ∧ '\n' ∉ l) :
    ∀ l ∈ specLines user pass rcpt ls, '\r' ∉ l ∧ '\n' ∉ l := by
  intro l hl
  unfold specLines at hl
  have e1 : "PASS ".toList = ['P', 'A', 'S', 'S', ' '] := rfl
  have e2 : "NICK ".toList = ['N', 'I', 'C', 'K', ' '] := rfl
  have e3 : "USER ".toList = ['U', 'S', 'E', 'R', ' '] := rfl
  have e4 : " 0.0.0.0 0.0.0.0 ".toList =
      [' ', '0', '.', '0', '.', '0', '.', '0', ' ', '0', '.', '0', '.', '0', '.', '0', ' '] := rfl
  have e5 : "QUIT".toList = ['Q', 'U', 'I', 'T'] := rfl
  rw [e1, e2, e3, e4, e5] at hl
  simp only [List.mem_append, List.mem_cons, List.mem_singleton, List.mem_map,
    List.not_mem_nil, or_false] at hl
  rcases hl with ((hl | hl) | hl) | hl
  · by_cases h : pass = []
    · simp [h] at hl
    · simp [h] at hl
      subst hl
      simp [hp.1, hp.2]
  · rcases hl with rfl | rfl
    · simp [hu.1, hu.2]
    · simp [hu.1, hu.2]
  · obtain ⟨x, hx, rfl⟩ := hl
    exact specPrivmsg_clean rcpt x hr (hls x hx)
  · subst hl
    simp

theorem recipient_clean (c : Checked) (h : '\r' ∉ c.match2 ∧ '\n' ∉ c.match2) :
    '\r' ∉ recipient c ∧ '\n' ∉ recipient c := by
  unfold recipient
  split <;> simp [h.1, h.2]

theorem map_writePrivmsg (r : Str) (ls : List Str) :
    ls.map (writePrivmsg r []) =
      (ls.map (specPrivmsg r)).map (fun t => t ++ "\r\n".toList) := by
  rw [List.map_map]
  apply List.map_congr_left
  intro l _
  rw [writePrivmsg_nil]
  rfl

theorem checkFields_ok (f : Flags) (a : Alert) (h : checkFields f = .ok a) :
    a.hName = f.hName ∧ a.hDisplayName = f.hDisplayName ∧ empty f.hName = false ∧
    (a.reportService = true →
      empty f.sName = false ∧ empty f.sState = false ∧
      a.sDisplayName = (if empty f.sDisplayName then f.sName else f.sDisplayName)) ∧
    (a.reportService = false → empty f.hState = false) := by
  unfold checkFields at h
  split at h
  · split at h
    · exact absurd h (by simp)
    · rename_i hreq
      injection h with h
      subst h
      simp at hreq
      exact ⟨rfl, rfl, hreq.1.1, fun _ => ⟨hreq.1.2, hreq.2, rfl⟩, fun h => absurd h (by simp)⟩
  · split at h
    · split at h
      · exact absurd h (by simp)
      · rename_i hreq
        injection h with h
        subst h
        simp at hreq
        exact ⟨rfl, rfl, hreq.1, fun h => absurd h (by simp), fun _ => hreq.2⟩
    · exact absurd h (by simp)

theorem LastIndexByte_none (s : Str) (c : Char) (h : c ∉ s) : LastIndexByte s c = none := by
  induction s with
  | nil => rfl
  | cons x xs ih =>
    have h1 : x ≠ c := fun e => h (by simp [e])
    have h2 : c ∉ xs := fun e => h (List.mem_cons_of_mem _ e)
    simp [LastIndexByte, ih h2, h1]

theorem LastIndexByte_append (a b : Str) (c : Char) (h : c ∉ b) :
    LastIndexByte (a ++ c :: b) c = some a.length := by
  induction a with
  | nil => simp [LastIndexByte, LastIndexByte_none b c h]
  | cons x xs ih => simp [LastIndexByte, ih]

theorem IndexByte_append (a b : Str) (c : Char) (h : c ∉ a) :
    IndexByte (a ++ c :: b) c = some a.length := by
  induction a with
  | nil => simp [IndexByte]
  | cons x xs ih =>
    have h1 : x ≠ c := fun e => h (by simp [e])
    have h2 : c ∉ xs := fun e => h (List.mem_cons_of_mem _ e)
    simp [IndexByte, h1, ih h2]

theorem SplitHostPort_no_colon (s : Str) (h : ':' ∉ s) : SplitHostPort s = none := by
  simp [SplitHostPort, LastIndexByte_none s ':' h]

theorem SplitHostPort_plain (h p : Str)
    (h1 : ':' ∉ h) (h2 : '[' ∉ h) (h3 : ']' ∉ h)
    (p1 : ':' ∉ p) (p2 : '[' ∉ p) (p3 : ']' ∉ p) :
    SplitHostPort (h ++ ':' :: p) = some (h, p) := by
  have hhead : (h ++ ':' :: p).head? ≠ some '[' := by
    cases h with
    | nil => simp
    | cons x xs =>
      have : x ≠ '[' := fun e => h2 (by simp [e])
      simpa using this
  have hdrop : List.drop (h.length + 1) (h ++ ':' :: p) = p := by
    have : h ++ ':' :: p = (h ++ [':']) ++ p := by simp
    rw [this]
    have hl : h.length + 1 = (h ++ [':']).length := by simp
    rw [hl, List.drop_left]
  unfold SplitHostPort
  rw [LastIndexByte_append h p ':' p1]
  simp only [if_neg hhead, List.take_left, if_neg h1]
  unfold splitHostPortTail
  simp only [List.drop_zero, hdrop]
  have m1 : '[' ∉ h ++ ':' :: p := by simp [h2, p2]
  have m2 : ']' ∉ h ++ ':' :: p := by simp [h3, p3]
  rw [if_neg m1, if_neg m2]

theorem SplitHostPort_bracket (h p : Str) (h2 : '[' ∉ h) (h3 : ']' ∉ h)
    (p1 : ':' ∉ p) (p2 : '[' ∉ p) (p3 : ']' ∉ p) :
    SplitHostPort ('[' :: (h ++ ']' :: ':' :: p)) = some (h, p) := by
  have e1 : '[' :: (h ++ ']' :: ':' :: p) = ('[' :: (h ++ [']'])) ++ ':' :: p := by simp
  have e2 : '[' :: (h ++ ']' :: ':' :: p) = ('[' :: h) ++ ']' :: (':' :: p) := by simp
  have hl : LastIndexByte ('[' :: (h ++ ']' :: ':' :: p)) ':' = some (h.length + 2) := by
    rw [e1, LastIndexByte_append _ p ':' p1]
    simp
  have hi : IndexByte ('[' :: (h ++ ']' :: ':' :: p)) ']' = some (h.length + 1) := by
    rw [e2, IndexByte_append _ _ ']' (by simp [h3])]
    simp
  have htake : (List.take (h.length + 1) ('[' :: (h ++ ']' :: ':' :: p))).drop 1 = h := by
    simp [List.take_left']
  have hd1 : List.drop 1 ('[' :: (h ++ ']' :: ':' :: p)) = h ++ ']' :: ':' :: p := by simp
  have hd2 : List.drop (h.length + 1 + 1) ('[' :: (h ++ ']' :: ':' :: p)) = ':' :: p := by
    rw [e1]
    have : h.length + 1 + 1 = ('[' :: (h ++ [']'])).length := by simp
    rw [this, List.drop_left]
  have hd3 : List.drop (h.length + 2 + 1) ('[' :: (h ++ ']' :: ':' :: p)) = p := by
    have : '[' :: (h ++ ']' :: ':' :: p) = ('[' :: (h ++ [']', ':'])) ++ p := by simp
    rw [this]
    have : h.length + 2 + 1 = ('[' :: (h ++ [']', ':'])).length := by simp
    rw [this, List.drop_left]
  unfold SplitHostPort
  rw [hl]
  simp only [List.head?_cons, if_true, hi]
  unfold splitHostPortTail
  rw [hd1, hd2, hd3, htake]
  have m1 : '[' ∉ h ++ ']' :: ':' :: p := by simp [h2, p2]
  have m2 : ']' ∉ ':' :: p := by simp [p3]
  have n1 : ¬ (h.length + 1 + 1 = ('[' :: (h ++ ']' :: ':' :: p)).length) := by simp
  rw [if_neg m1, if_neg m2, if_neg n1]

theorem SplitHostPort_bracket_only (h : Str) (h3 : ']' ∉ h) :
    SplitHostPort ('[' :: (h ++ [']'])) = none := by
  have hi : IndexByte ('[' :: (h ++ [']'])) ']' = some (h.length + 1) := by
    have e2 : '[' :: (h ++ [']']) = ('[' :: h) ++ ']' :: [] := by simp
    rw [e2, IndexByte_append _ _ ']' (by simp [h3])]
    simp
  unfold SplitHostPort
  cases LastIndexByte ('[' :: (h ++ [']'])) ':' with
  | none => rfl
  | some i =>
    simp only [List.head?_cons, if_true, hi]
    rw [if_pos (by simp)]

theorem schemeSwitch_some (s : Str) (ssl : Bool) (dp : Str) :
    schemeSwitch s = some (ssl, dp) ↔
      (s = "irc".toList ∧ ssl = false ∧ dp = "6667".toList) ∨
      (s = "ircs".toList ∧ ssl = true ∧ dp = "6697".toList) := by
  unfold schemeSwitch
  by_cases h1 : s = "irc".toList
  · rw [if_pos h1]
    have : s ≠ "ircs".toList := by rw [h1]; decide
    constructor
    · intro h
      simp only [Option.some.injEq, Prod.mk.injEq] at h
      exact Or.inl ⟨h1, h.1.symm, h.2.symm⟩
    · rintro (⟨_, rfl, rfl⟩ | ⟨h, _, _⟩)
      · rfl
      · exact absurd h this
  · rw [if_neg h1]
    by_cases h2 : s = "ircs".toList
    · rw [if_pos h2]
      constructor
      · intro h
        simp only [Option.some.injEq, Prod.mk.injEq] at h
        exact Or.inr ⟨h2, h.1.symm, h.2.symm⟩
      · rintro (⟨h, _, _⟩ | ⟨_, rfl, rfl⟩)
        · exact absurd h h1
        · rfl
    · rw [if_neg h2]
      constructor
      · intro h
        exact absurd h (by simp)
      · rintro (⟨h, _, _⟩ | ⟨h, _, _⟩)
        · exact absurd h h1
        · exact absurd h h2

theorem schemeSwitch_none (s : Str) :
    schemeSwitch s = none ↔ s ≠ "irc".toList ∧ s ≠ "ircs".toList := by
  unfold schemeSwitch
  by_cases h1 : s = "irc".toList
  · rw [if_pos h1]
    simp [h1]
  · rw [if_neg h1]
    by_cases h2 : s = "ircs".toList
    · rw [if_pos h2]
      simp [h2]
    · rw [if_neg h2]
      exact ⟨fun _ => ⟨h1, h2⟩, fun _ => rfl⟩

theorem ircUrlPathStructure_none (path : Str) :
    ircUrlPathStructure path = none ↔
      ¬ ∃ name : Str, name ≠ [] ∧ '/' ∉ name ∧
        (path = "/direct/".toList ++ name ∨ path = "/channel/".toList ++ name) := by
  constructor
  · rintro h ⟨name, h1, h2, h3 | h3⟩
    · have := (ircUrlPathStructure_some path "direct".toList name).2
        ⟨Or.inl rfl, h1, h2, by rw [h3]; rfl⟩
      rw [h] at this
      exact absurd this (by simp)
    · have := (ircUrlPathStructure_some path "channel".toList name).2
        ⟨Or.inr rfl, h1, h2, by rw [h3]; rfl⟩
      rw [h] at this
      exact absurd this (by simp)
  · intro h
    cases hp : ircUrlPathStructure path with
    | none => rfl
    | some x =>
      obtain ⟨m, n⟩ := x
      obtain ⟨hm, h1, h2, h3⟩ := (ircUrlPathStructure_some path m n).1 hp
      exfalso
      apply h
      refine ⟨n, h1, h2, ?_⟩
      rcases hm with rfl | rfl
      · exact Or.inl (by rw [h3]; rfl)
      · exact Or.inr (by rw [h3]; rfl)

theorem checkUrl_error_iff (ircUrl : URL) :
    (∃ e, checkUrl ircUrl = .error e) ↔
      ((ParseQuery ircUrl.RawQuery).err = true ∨ schemeSwitch ircUrl.Scheme = none ∨
        empty (Username ircUrl.User) = true ∨ empty ircUrl.Host = true ∨
        ircUrlPathStructure ircUrl.Path = none) := by
  unfold checkUrl
  by_cases hq : (ParseQuery ircUrl.RawQuery).err = true
  · simp [hq]
  · rw [if_neg hq]
    cases hs : schemeSwitch ircUrl.Scheme with
    | none => simp
    | some sd =>
      by_cases hu : empty (Username ircUrl.User) = true
      · simp [hu]
      · by_cases hh : empty ircUrl.Host = true
        · simp [hu, hh]
        · cases hp : ircUrlPathStructure ircUrl.Path with
          | none => simp [hu, hh]
          | some m => simp [hq, hu, hh]

theorem checkUrl_invariant (ircUrl : URL) (c : Checked) (hc : checkUrl ircUrl = .ok c) :
    empty c.user = false ∧ empty ircUrl.Host = false ∧
    ((c.match1 = "direct".toList ∧ c.match1 ≠ "channel".toList) ∨
      (c.match1 = "channel".toList ∧ c.match1 ≠ "direct".toList)) ∧
    c.match2 ≠ [] := by
  obtain ⟨_, _, _, hu, hh, hp, _⟩ := checkUrl_ok ircUrl c hc
  obtain ⟨hm, hn, _, _⟩ := (ircUrlPathStructure_some _ _ _).1 hp
  refine ⟨hu, hh, ?_, hn⟩
  rcases hm with h | h
  · exact Or.inl ⟨h, by rw [h]; decide⟩
  · exact Or.inr ⟨h, by rw [h]; decide⟩

theorem deliver_exit (w : World) (ircUrl : URL) (c : Checked) (buf : Str) (x : Nat)
    (trace : List Effect) (hx : x ≤ 1) : (deliver w ircUrl c buf x trace).1 ≤ 1 := by
  unfold deliver
  simp only
  split
  · exact Nat.le_refl 1
  · split
    · exact Nat.le_refl 1
    · split
      · exact Nat.le_refl 1
      · exact hx

theorem run_normalize_error (w : World) (c : Complaint) (h1 : empty w.IRC_URL = false)
    (h2 : normalize w.flags = .error c) : run w = (2, [Effect.complain c]) := by
  unfold run
  simp only [h1, h2, Bool.false_eq_true, if_false]

theorem run_blank_url (w : World) (h1 : empty w.IRC_URL = true) :
    run w = (2, [Effect.complain .missingIrcUrl]) := by
  unfold run
  simp only [h1, if_true]

theorem deliver_dials (w : World) (ircUrl : URL) (c : Checked) (buf : Str) (x : Nat)
    (trace : List Effect) :
    (deliver w ircUrl c buf x trace).2.filter isDial =
      trace.filter isDial ++ [dialOf ircUrl c] := by
  unfold deliver dialOf
  simp only
  split
  · simp [isDial]
  · split
    · simp [isDial]
    · split <;> simp [isDial]

theorem run_ok (w : World) (ircUrl : URL) (a : Alert) (c : Checked)
    (h1 : empty w.IRC_URL = false) (h2 : normalize w.flags = .ok a)
    (h3 : w.urlParse w.IRC_URL = some ircUrl) (h4 : checkUrl ircUrl = .ok c) :
    ∃ (buf : Str) (x : Nat) (pre : List Effect),
      run w = deliver w ircUrl c buf x pre ∧ pre.filter isDial = [] ∧ x ≤ 1 := by
  unfold run
  simp only [h1, h2, h3, h4, Bool.false_eq_true, if_false]
  cases w.hostname with
  | none => exact ⟨_, 1, [Effect.stderr], rfl, by simp [isDial], Nat.le_refl 1⟩
  | some hn => exact ⟨_, 0, [], rfl, by simp, Nat.zero_le 1⟩

theorem run_dials (w : World) (ircUrl : URL) (a : Alert) (c : Checked)
    (h1 : empty w.IRC_URL = false) (h2 : normalize w.flags = .ok a)
    (h3 : w.urlParse w.IRC_URL = some ircUrl) (h4 : checkUrl ircUrl = .ok c) :
    (run w).2.filter isDial = [dialOf ircUrl c] ∧ (run w).1 ≤ 1 := by
  obtain ⟨buf, x, pre, hr, hp, hx⟩ := run_ok w ircUrl a c h1 h2 h3 h4
  rw [hr, deliver_dials, hp]
  exact ⟨rfl, deliver_exit w ircUrl c buf x pre hx⟩

theorem checkUrl_ok_iff (u : URL) :
    (∃ c, checkUrl u = .ok c) ↔ ((ParseQuery u.RawQuery).err = false ∧ ¬ statedFaults u) := by
  have key : (∃ e, checkUrl u = .error e) ↔
      ((ParseQuery u.RawQuery).err = true ∨ statedFaults u) := by
    rw [checkUrl_error_iff, schemeSwitch_none, ircUrlPathStructure_none]
    rfl
  constructor
  · rintro ⟨c, hc⟩
    constructor
    · by_contra h
      have : ∃ e, checkUrl u = .error e := key.2 (Or.inl (by simpa using h))
      obtain ⟨e, he⟩ := this
      rw [hc] at he
      exact absurd he (by simp)
    · intro h
      obtain ⟨e, he⟩ := key.2 (Or.inr h)
      rw [hc] at he
      exact absurd he (by simp)
  · rintro ⟨h1, h2⟩
    cases hc : checkUrl u with
    | ok c => exact ⟨c, rfl⟩
    | error e =>
      exfalso
      rcases key.1 ⟨e, hc⟩ with h | h
      · rw [h1] at h
        exact absurd h (by simp)
      · exact h2 h

theorem run_not_validated (w : World) (h : ¬ validated w) :
    ∃ c, run w = (2, [Effect.complain c]) := by
  by_cases h1 : empty w.IRC_URL = true
  · exact ⟨_, run_blank_url w h1⟩
  · have h1' : empty w.IRC_URL = false := by simpa using h1
    cases h2 : normalize w.flags with
    | error c => exact ⟨c, run_normalize_error w c h1' h2⟩
    | ok a =>
      cases h3 : w.urlParse w.IRC_URL with
      | none =>
        refine ⟨.badUrl, ?_⟩
        unfold run
        simp only [h1', h2, h3, Bool.false_eq_true, if_false]
      | some u =>
        cases h4 : checkUrl u with
        | error c =>
          refine ⟨c, ?_⟩
          unfold run
          simp only [h1', h2, h3, h4, Bool.false_eq_true, if_false]
        | ok c =>
          exfalso
          apply h
          have := (checkUrl_ok_iff u).1 ⟨c, h4⟩
          exact ⟨h1', ⟨a, h2⟩, u, h3, this.1, this.2⟩

theorem run_validated (w : World) (h : validated w) :
    (∃ e, (run w).2.filter isDial = [e]) ∧ (run w).1 ≤ 1 := by
  obtain ⟨h1, ⟨a, h2⟩, u, h3, h4, h5⟩ := h
  obtain ⟨c, hc⟩ := (checkUrl_ok_iff u).2 ⟨h4, h5⟩
  have := run_dials w u a c h1 h2 h3 hc
  exact ⟨⟨_, this.1⟩, this.2⟩

theorem QueryUnescape_plain (v : Str) (h1 : '%' ∉ v) (h2 : '+' ∉ v) :
    QueryUnescape v = some v := by
  induction v with
  | nil => rfl
  | cons c cs ih =>
    have c1 : c ≠ '%' := fun e => h1 (by simp [e])
    have c2 : c ≠ '+' := fun e => h2 (by simp [e])
    have t1 : '%' ∉ cs := fun e => h1 (List.mem_cons_of_mem _ e)
    have t2 : '+' ∉ cs := fun e => h2 (List.mem_cons_of_mem _ e)
    unfold QueryUnescape
    rw [if_neg c1, if_neg c2, ih t1 t2]
    rfl

theorem Split_no_sep (sep : Char) (s : Str) (h : sep ∉ s) : Split sep s = [s] := by
  induction s with
  | nil => rfl
  | cons c cs ih =>
    have hc : c ≠ sep := fun e => h (by simp [e])
    have ht : sep ∉ cs := fun e => h (List.mem_cons_of_mem _ e)
    obtain ⟨l, ls, e1, e2⟩ := Split_cons_ne sep c cs hc
    rw [ih ht] at e1
    injection e1 with e1 e3
    rw [e2, ← e1, ← e3]

theorem Cut_append (sep : Char) (a b : Str) (h : sep ∉ a) :
    Cut sep (a ++ sep :: b) = (a, b) := by
  induction a with
  | nil => simp [Cut]
  | cons c cs ih =>
    have hc : c ≠ sep := fun e => h (by simp [e])
    have ht : sep ∉ cs := fun e => h (List.mem_cons_of_mem _ e)
    simp [Cut, hc, ih ht]

theorem Get_single_insecure (v : Str) (h1 : '&' ∉ v) (h2 : ';' ∉ v) (h3 : '%' ∉ v)
    (h4 : '+' ∉ v) :
    ParseQuery ("insecure=".toList ++ v) = ⟨[("insecure".toList, v)], false⟩ := by
  have hs : Split '&' ("insecure=".toList ++ v) = ["insecure=".toList ++ v] := by
    apply Split_no_sep
    intro hm
    rcases List.mem_append.1 hm with hm | hm
    · exact absurd hm (by decide)
    · exact h1 hm
  have hsemi : ';' ∉ "insecure=".toList ++ v := by
    intro hm
    rcases List.mem_append.1 hm with hm | hm
    · exact absurd hm (by decide)
    · exact h2 hm
  have hne : "insecure=".toList ++ v ≠ [] := by
    rw [show "insecure=".toList = ['i', 'n', 's', 'e', 'c', 'u', 'r', 'e', '='] from rfl]
    exact List.cons_ne_nil _ _
  have hcut : Cut '=' ("insecure=".toList ++ v) = ("insecure".toList, v) := by
    have : "insecure=".toList ++ v = "insecure".toList ++ '=' :: v := by
      rw [show "insecure=".toList = "insecure".toList ++ ['='] from rfl,
        List.append_assoc]
      rfl
    rw [this]
    exact Cut_append '=' _ v (by decide)
  have hk : QueryUnescape "insecure".toList = some "insecure".toList := by decide
  unfold ParseQuery
  rw [hs]
  simp only [List.foldl_cons, List.foldl_nil]
  unfold parseQuerySegment
  rw [if_neg hsemi, if_neg hne, hcut]
  simp only [hk, QueryUnescape_plain v h3 h4, List.nil_append]

theorem empty_iff (s : Str) : empty s = true ↔ ∀ c ∈ s, isSpace c = true := by
  unfold empty TrimSpace
  rw [List.isEmpty_iff, List.rdropWhile_eq_nil_iff]
  constructor
  · intro h
    have hd : s.dropWhile isSpace = [] := by
      by_contra hne
      have h1 := List.head_dropWhile_not isSpace s hne
      have h2 := h _ (List.head_mem hne)
      rw [h1] at h2
      exact absurd h2 (by simp)
    exact List.dropWhile_eq_nil_iff.1 hd
  · intro h
    rw [List.dropWhile_eq_nil_iff.2 h]
    intro x hx
    exact absurd hx (by simp)

theorem blanked_empty (s1 s2 : Str) (h : blanked s1 s2) : empty s2 = empty s1 := by
  rcases h with h | ⟨h1, h2⟩
  · rw [h]
  · rw [h2, (empty_iff s1).2 h1]
    rfl

theorem normalize_of_checkFields (f : Flags) :
    (∀ c, checkFields f = .error c → normalize f = .error c) ∧
    (∀ a0, checkFields f = .ok a0 →
      ∃ a, normalize f = .ok a ∧ a.reportService = a0.reportService ∧
        a.state = a0.state ∧ a.output = a0.output) := by
  constructor
  · intro c hc
    unfold normalize
    rw [hc]
  · intro a0 h0
    unfold normalize
    rw [h0]
    by_cases hd : empty a0.hDisplayName = true
    · exact ⟨{ a0 with hDisplayName := a0.hName }, by simp only [hd, if_true], rfl, rfl, rfl⟩
    · exact ⟨a0, by simp only [hd, Bool.false_eq_true, if_false], rfl, rfl, rfl⟩

theorem verdict_eq (f : Flags) :
    verdict f =
      match checkFields f with
      | .error c => .error c
      | .ok a => .ok a.reportService := by
  unfold verdict
  cases hc : checkFields f with
  | error c => rw [(normalize_of_checkFields f).1 c hc]
  | ok a0 =>
    obtain ⟨a, ha, hr, _, _⟩ := (normalize_of_checkFields f).2 a0 hc
    rw [ha]
    simp only [hr]

theorem verdict_congr (f g : Flags)
    (h1 : empty g.hName = empty f.hName) (h2 : empty g.hDisplayName = empty f.hDisplayName)
    (h3 : empty g.hActionUrl = empty f.hActionUrl) (h4 : empty g.hState = empty f.hState)
    (h5 : empty g.hOutput = empty f.hOutput) (h6 : empty g.sName = empty f.sName)
    (h7 : empty g.sDisplayName = empty f.sDisplayName)
    (h8 : empty g.sActionUrl = empty f.sActionUrl) (h9 : empty g.sState = empty f.sState)
    (h10 : empty g.sOutput = empty f.sOutput) : verdict g = verdict f := by
  rw [verdict_eq, verdict_eq]
  unfold checkFields
  rw [h1, h2, h3, h4, h5, h6, h7, h8, h9, h10]
  split_ifs <;> rfl

theorem normalize_service (f : Flags) (x y : Str)
    (hs : ¬ (empty f.sName = true ∧ empty f.sDisplayName = true ∧ empty f.sActionUrl = true ∧
          empty f.sState = true ∧ empty f.sOutput = true)) :
    normalize { f with hState := x, hOutput := y } = normalize f ∧
    ∀ a, normalize f = .ok a →
      a.reportService = true ∧ a.state = f.sState ∧ a.output = f.sOutput := by
  have hs' : (!empty f.sName || !empty f.sDisplayName || !empty f.sActionUrl ||
      !empty f.sState || !empty f.sOutput) = true := by
    by_contra hc
    apply hs
    simp at hc
    simpa [and_assoc] using hc
  constructor
  · unfold normalize checkFields
    simp only [hs', if_true]
  · intro a ha
    cases hc : checkFields f with
    | error c =>
      rw [(normalize_of_checkFields f).1 c hc] at ha
      exact absurd ha (by simp)
    | ok a0 =>
      obtain ⟨a1, ha1, hr, hst, ho⟩ := (normalize_of_checkFields f).2 a0 hc
      rw [ha1] at ha
      injection ha with ha
      subst ha
      rw [hr, hst, ho]
      unfold checkFields at hc
      rw [if_pos hs'] at hc
      split at hc
      · exact absurd hc (by simp)
      · injection hc with hc
        subst hc
        exact ⟨rfl, rfl, rfl⟩

theorem run_congr (w v : World) (hn : normalize v.flags = normalize w.flags)
    (ht : v.flags.icingaTimet = w.flags.icingaTimet) (h1 : v.now = w.now)
    (h2 : v.timeString = w.timeString) (h3 : v.IRC_URL = w.IRC_URL)
    (h4 : v.urlParse = w.urlParse) (h5 : v.hostname = w.hostname)
    (h6 : v.dialOk = w.dialOk) (h7 : v.writeOk = w.writeOk) (h8 : v.readOk = w.readOk) :
    run v = run w := by
  unfold run deliver
  rw [hn, ht, h1, h2, h3, h4, h5, h6, h7, h8]

theorem Split_append_sep (sep : Char) (a r : Str) (h : sep ∉ a) :
    Split sep (a ++ sep :: r) = a :: Split sep r := by
  induction a with
  | nil => simp [Split]
  | cons c cs ih =>
    have hc : c ≠ sep := fun e => h (by simp [e])
    have ht : sep ∉ cs := fun e => h (List.mem_cons_of_mem _ e)
    obtain ⟨l, ls, e1, e2⟩ := Split_cons_ne sep c (cs ++ sep :: r) hc
    rw [ih ht] at e1
    injection e1 with e1 e3
    rw [List.cons_append, e2, ← e1, ← e3]

theorem normalize_state (f : Flags) (a : Alert) (h : normalize f = .ok a) :
    (a.reportService = true → a.state = f.sState ∧ a.output = f.sOutput) ∧
    (a.reportService = false → a.state = f.hState ∧ a.output = f.hOutput) := by
  cases hc : checkFields f with
  | error c =>
    rw [(normalize_of_checkFields f).1 c hc] at h
    exact absurd h (by simp)
  | ok a0 =>
    obtain ⟨a1, ha1, hr, hst, ho⟩ := (normalize_of_checkFields f).2 a0 hc
    rw [ha1] at h
    injection h with h
    subst h
    rw [hr, hst, ho]
    unfold checkFields at hc
    split at hc
    · split at hc
      · exact absurd hc (by simp)
      · injection hc with hc
        subst hc
        exact ⟨fun _ => ⟨rfl, rfl⟩, fun h => absurd h (by simp)⟩
    · split at hc
      · split at hc
        · exact absurd hc (by simp)
        · injection hc with hc
          subst hc
          exact ⟨fun h => absurd h (by simp), fun _ => ⟨rfl, rfl⟩⟩
      · exact absurd hc (by simp)

theorem pMark_dot (s : Str) : pMark s = ".".toList ↔ (s = "UP".toList ∨ s = "OK".toList) := by
  unfold pMark
  by_cases h : s = "UP".toList ∨ s = "OK".toList
  · rw [if_pos h]
    exact ⟨fun _ => h, fun _ => rfl⟩
  · rw [if_neg h]
    exact ⟨fun e => absurd e (by decide), fun e => absurd e h⟩

theorem pMark_bang (s : Str) :
    pMark s = "!".toList ↔ ¬ (s = "UP".toList ∨ s = "OK".toList) := by
  unfold pMark
  by_cases h : s = "UP".toList ∨ s = "OK".toList
  · rw [if_pos h]
    exact ⟨fun e => absurd e (by decide), fun e => absurd h e⟩
  · rw [if_neg h]
    exact ⟨fun _ => h, fun _ => rfl⟩

theorem compose_service (a : Alert) (hostname when : Str) (h : a.reportService = true) :
    compose a hostname when =
      ("***** Service monitoring on ".toList ++ hostname ++ " *****".toList) ++ '\n' ::
      '\n' :: (a.sDisplayName ++ " on ".toList ++ a.hDisplayName ++ " is ".toList ++ a.state ++
        pMark a.state) ++ '\n' ::
      '\n' :: ("When: ".toList ++ when) ++ '\n' ::
      ("Host: ".toList ++ a.hName ++ " ".toList ++ a.hActionUrl) ++ '\n' ::
      ("Service: ".toList ++ a.sName ++ " ".toList ++ a.sActionUrl) ++ '\n' ::
      "Info:".toList ++ '\n' :: '\n' :: a.output := by
  unfold compose
  rw [if_pos h]
  simp [List.append_assoc]

theorem compose_host (a : Alert) (hostname when : Str) (h : a.reportService = false) :
    compose a hostname when =
      ("***** Host monitoring on ".toList ++ hostname ++ " *****".toList) ++ '\n' ::
      '\n' :: (a.hDisplayName ++ " is ".toList ++ a.state ++ pMark a.state) ++ '\n' ::
      '\n' :: ("When: ".toList ++ when) ++ '\n' ::
      ("Host: ".toList ++ a.hName ++ " ".toList ++ a.hActionUrl) ++ '\n' ::
      "Info:".toList ++ '\n' :: '\n' :: a.output := by
  unfold compose
  rw [if_neg (by simp [h])]
  simp [List.append_assoc]

theorem compose_head (a : Alert) (hostname when : Str) :
    ∃ rest, compose a hostname when =
      specBanner a hostname ++ '\n' :: ([] ++ '\n' :: (specStatus a ++ '\n' :: rest)) := by
  cases hr : a.reportService with
  | true =>
    refine ⟨'\n' :: ("When: ".toList ++ when) ++ '\n' ::
      ("Host: ".toList ++ a.hName ++ " ".toList ++ a.hActionUrl) ++ '\n' ::
      ("Service: ".toList ++ a.sName ++ " ".toList ++ a.sActionUrl) ++ '\n' ::
      "Info:".toList ++ '\n' :: '\n' :: a.output, ?_⟩
    rw [compose_service a hostname when hr]
    simp only [specBanner, specStatus, hr, if_true]
    simp [List.append_assoc]
  | false =>
    refine ⟨'\n' :: ("When: ".toList ++ when) ++ '\n' ::
      ("Host: ".toList ++ a.hName ++ " ".toList ++ a.hActionUrl) ++ '\n' ::
      "Info:".toList ++ '\n' :: '\n' :: a.output, ?_⟩
    rw [compose_host a hostname when hr]
    simp only [specBanner, specStatus, hr, Bool.false_eq_true, if_false]
    simp [List.append_assoc]

theorem compose_tail (a : Alert) (hostname when : Str) :
    ∃ head, compose a hostname when =
      head ++ '\n' :: (labelBeforeInfo a ++ '\n' :: ("Info:".toList ++ '\n' :: ([] ++
        '\n' :: a.output))) := by
  cases hr : a.reportService with
  | true =>
    refine ⟨("***** Service monitoring on ".toList ++ hostname ++ " *****".toList) ++ '\n' ::
      '\n' :: (a.sDisplayName ++ " on ".toList ++ a.hDisplayName ++ " is ".toList ++ a.state ++
        pMark a.state) ++ '\n' ::
      '\n' :: ("When: ".toList ++ when) ++ '\n' ::
      ("Host: ".toList ++ a.hName ++ " ".toList ++ a.hActionUrl), ?_⟩
    rw [compose_service a hostname when hr]
    simp only [labelBeforeInfo, hr, if_true]
    simp [List.append_assoc]
  | false =>
    refine ⟨("***** Host monitoring on ".toList ++ hostname ++ " *****".toList) ++ '\n' ::
      '\n' :: (a.hDisplayName ++ " is ".toList ++ a.state ++ pMark a.state) ++ '\n' ::
      '\n' :: ("When: ".toList ++ when), ?_⟩
    rw [compose_host a hostname when hr]
    simp only [labelBeforeInfo, hr, Bool.false_eq_true, if_false]
    simp [List.append_assoc]

theorem specBanner_clean (a : Alert) (hostname : Str) (h : '\n' ∉ hostname) :
    '\n' ∉ specBanner a hostname := by
  unfold specBanner
  cases a.reportService <;> simp [h]

theorem Split_append (sep : Char) (a b : Str) :
    Split sep (a ++ sep :: b) = Split sep a ++ Split sep b := by
  induction a with
  | nil => simp [Split]
  | cons c cs ih =>
    by_cases hc : c = sep
    · subst hc
      simp [Split, ih]
    · obtain ⟨l, ls, e1, e2⟩ := Split_cons_ne sep c cs hc
      obtain ⟨l', ls', e3, e4⟩ := Split_cons_ne sep c (cs ++ sep :: b) hc
      rw [ih, e1] at e3
      simp only [List.cons_append, List.cons.injEq] at e3
      rw [List.cons_append, e4, e2, ← e3.1, ← e3.2]
      rfl

theorem Split_snoc (sep d : Char) (x : Str) (hd : d ≠ sep) :
    ∃ init l, Split sep x = init ++ [l] ∧ Split sep (x ++ [d]) = init ++ [l ++ [d]] := by
  induction x with
  | nil =>
    refine ⟨[], [], rfl, ?_⟩
    simp [Split, hd]
  | cons c cs ih =>
    obtain ⟨init, l, e1, e2⟩ := ih
    by_cases hc : c = sep
    · subst hc
      refine ⟨[] :: init, l, ?_, ?_⟩
      · simp [Split, e1]
      · simp [Split, e2]
    · obtain ⟨h1, t1, f1, f2⟩ := Split_cons_ne sep c cs hc
      obtain ⟨h2, t2, g1, g2⟩ := Split_cons_ne sep c (cs ++ [d]) hc
      cases init with
      | nil =>
        rw [e1] at f1
        rw [e2] at g1
        simp only [List.nil_append, List.cons.injEq] at f1 g1
        refine ⟨[], c :: l, ?_, ?_⟩
        · rw [f2, ← f1.1, ← f1.2]; rfl
        · rw [List.cons_append, g2, ← g1.1, ← g1.2]; rfl
      | cons i0 is =>
        rw [e1] at f1
        rw [e2] at g1
        simp only [List.cons_append, List.cons.injEq] at f1 g1
        refine ⟨(c :: i0) :: is, l, ?_, ?_⟩
        · rw [f2, ← f1.1, ← f1.2]; rfl
        · rw [List.cons_append, g2, ← g1.1, ← g1.2]; rfl

theorem dropWhile_head (s : Str) (c : Char) (t : Str) (hs : s = c :: t)
    (hc : isSpace c = false) : s.dropWhile isSpace = s := by
  rw [hs, List.dropWhile_cons]
  simp [hc]

theorem rdropWhile_append_all (s w : Str) (hw : ∀ x ∈ w, isSpace x = true) :
    (s ++ w).rdropWhile isSpace = s.rdropWhile isSpace := by
  induction w using List.reverseRecOn with
  | nil => simp
  | append_singleton w x ih =>
    have hx : isSpace x = true := hw x (by simp)
    have hw' : ∀ y ∈ w, isSpace y = true := fun y hy => hw y (by simp [hy])
    rw [← List.append_assoc, List.rdropWhile_concat, if_pos hx, ih hw']

theorem rdropWhile_last (q : Str) (d : Char) (hd : isSpace d = false) :
    (q ++ [d]).rdropWhile isSpace = q ++ [d] := by
  rw [List.rdropWhile_concat]
  simp [hd]

theorem TrimSpace_core (c d : Char) (t q w : Str) (s : Str) (h1 : s = c :: t)
    (h2 : s = q ++ [d]) (hc : isSpace c = false) (hd : isSpace d = false)
    (hw : ∀ x ∈ w, isSpace x = true) : TrimSpace (s ++ w) = s := by
  unfold TrimSpace
  rw [dropWhile_head (s ++ w) c (t ++ w) (by rw [h1]; rfl) hc, rdropWhile_append_all s w hw,
    h2, rdropWhile_last q d hd]

theorem bodyLines_head (msg : Str) (c : Char) (t : Str) (h : TrimSpace msg = c :: t) :
    ∃ l ls, bodyLines msg = (c :: l) :: ls := by
  have hc : isSpace c = false := TrimSpace_head msg c (by rw [h]; rfl)
  have c1 : c ≠ '\r' := by
    intro e; rw [e] at hc; exact absurd hc (by decide)
  have c2 : c ≠ '\n' := by
    intro e; rw [e] at hc; exact absurd hc (by decide)
  unfold bodyLines ReplaceAllNil
  rw [h, List.filter_cons_of_pos (by simpa using c1)]
  obtain ⟨l, ls, _, e2⟩ := Split_cons_ne '\n' c (t.filter fun x => x != '\r') c2
  exact ⟨l, ls, e2⟩

theorem bodyLines_last (msg : Str) (q : Str) (d : Char) (h : TrimSpace msg = q ++ [d]) :
    ∃ init l, bodyLines msg = init ++ [l ++ [d]] := by
  have hd : isSpace d = false := TrimSpace_getLast msg d (by rw [h]; simp)
  have d1 : d ≠ '\r' := by
    intro e; rw [e] at hd; exact absurd hd (by decide)
  have d2 : d ≠ '\n' := by
    intro e; rw [e] at hd; exact absurd hd (by decide)
  unfold bodyLines ReplaceAllNil
  rw [h, List.filter_append, List.filter_cons_of_pos (by simpa using d1), List.filter_nil]
  obtain ⟨init, l, _, e2⟩ := Split_snoc '\n' d (q.filter fun x => x != '\r') d2
  exact ⟨init, l, e2⟩

theorem compose_star (a : Alert) (hostname when : Str) :
    ∃ r, compose a hostname when = '*' :: r := by
  obtain ⟨rest, h⟩ := compose_head a hostname when
  rw [h]
  unfold specBanner
  rw [show "***** ".toList = '*' :: "**** ".toList from rfl]
  exact ⟨_, rfl⟩

theorem TrimSpace_compose_ne_nil (a : Alert) (hostname when : Str) :
    TrimSpace (compose a hostname when) ≠ [] := by
  obtain ⟨r, h⟩ := compose_star a hostname when
  intro e
  have : empty (compose a hostname when) = true := by
    unfold empty
    rw [e]
    rfl
  have := (empty_iff _).1 this '*' (by rw [h]; simp)
  exact absurd this (by decide)

theorem bodyLines_ends (msg : Str) (hne : TrimSpace msg ≠ []) :
    (∃ first rest, bodyLines msg = first :: rest ∧ first ≠ []) ∧
    (∃ init last, bodyLines msg = init ++ [last] ∧ last ≠ []) := by
  constructor
  · obtain ⟨c, t, h⟩ := List.exists_cons_of_ne_nil hne
    obtain ⟨l, ls, e⟩ := bodyLines_head msg c t h
    exact ⟨c :: l, ls, e, by simp⟩
  · rcases List.eq_nil_or_concat (TrimSpace msg) with h | ⟨q, d, h⟩
    · exact absurd h hne
    · rw [List.concat_eq_append] at h
      obtain ⟨init, l, e⟩ := bodyLines_last msg q d h
      exact ⟨init, l ++ [d], e, by simp⟩

theorem bodyLines_blank_output (a : Alert) (hostname when : Str)
    (hw : ∀ c ∈ a.output, isSpace c = true) :
    ∃ init, bodyLines (compose a hostname when) = init ++ ["Info:".toList] := by
  obtain ⟨head, hhead⟩ := compose_tail a hostname when
  obtain ⟨r, hr⟩ := compose_star a hostname when
  have e1 : compose a hostname when =
      ((head ++ '\n' :: labelBeforeInfo a) ++ '\n' :: "Info:".toList) ++
        ('\n' :: '\n' :: a.output) := by
    rw [hhead]
    simp [List.append_assoc]
  have hws : ∀ x ∈ '\n' :: '\n' :: a.output, isSpace x = true := by
    intro x hx
    simp only [List.mem_cons] at hx
    rcases hx with rfl | rfl | hx
    · decide
    · decide
    · exact hw x hx
  have hlast : (head ++ '\n' :: labelBeforeInfo a) ++ '\n' :: "Info:".toList =
      ((head ++ '\n' :: labelBeforeInfo a) ++ '\n' :: "Info".toList) ++ [':'] := by
    rw [show "Info:".toList = "Info".toList ++ [':'] from rfl]
    simp [List.append_assoc]
  have hfirst : ∃ t, (head ++ '\n' :: labelBeforeInfo a) ++ '\n' :: "Info:".toList = '*' :: t := by
    cases hX : (head ++ '\n' :: labelBeforeInfo a) ++ '\n' :: "Info:".toList with
    | nil => simp at hX
    | cons x0 t =>
      rw [e1, hX] at hr
      simp only [List.cons_append, List.cons.injEq] at hr
      exact ⟨t, by rw [hr.1]⟩
  obtain ⟨t, ht⟩ := hfirst
  have htrim : TrimSpace (compose a hostname when) =
      (head ++ '\n' :: labelBeforeInfo a) ++ '\n' :: "Info:".toList := by
    rw [e1]
    exact TrimSpace_core '*' ':' t _ _ _ ht hlast (by decide) (by decide) hws
  refine ⟨Split '\n' (ReplaceAllNil (head ++ '\n' :: labelBeforeInfo a) '\r'), ?_⟩
  unfold bodyLines
  rw [htrim]
  unfold ReplaceAllNil
  rw [List.filter_append, List.filter_cons_of_pos (by decide),
    show List.filter (fun c => c != '\r') "Info:".toList = "Info:".toList from by decide,
    Split_append, Split_no_sep '\n' "Info:".toList (by decide)]

theorem compose_hostDown (L when : Str) :
    compose alertHostDown L when =
      "***** Host monitoring on ".toList ++ (L ++ (" *****\n\nh1 is DOWN!\n\nWhen: ".toList ++
        (when ++ "\nHost: h1 \nInfo:\n\nping failed".toList))) := by
  simp [compose, alertHostDown, pMark]

theorem bodyLines_hostDown (L when : Str) (h1 : '\r' ∉ L) (h2 : '\n' ∉ L)
    (h3 : '\n' ∉ when) :
    bodyLines (compose alertHostDown L when) =
      ["***** Host monitoring on ".toList ++ L ++ " *****".toList, [],
       "h1 is DOWN!".toList, [], "When: ".toList ++ when.filter (fun c => c != '\r'),
       "Host: h1 ".toList, "Info:".toList, [], "ping failed".toList] := by
  have hs : compose alertHostDown L when =
      '*' :: ("**** Host monitoring on ".toList ++ (L ++
        (" *****\n\nh1 is DOWN!\n\nWhen: ".toList ++
        (when ++ "\nHost: h1 \nInfo:\n\nping failed".toList)))) := by
    rw [compose_hostDown]; rfl
  have hl : compose alertHostDown L when =
      ("***** Host monitoring on ".toList ++ (L ++
        (" *****\n\nh1 is DOWN!\n\nWhen: ".toList ++
        (when ++ "\nHost: h1 \nInfo:\n\nping faile".toList)))) ++ ['d'] := by
    rw [compose_hostDown]
    simp [List.append_assoc]
  have htrim : TrimSpace (compose alertHostDown L when) = compose alertHostDown L when := by
    have := TrimSpace_core '*' 'd' _ _ [] (compose alertHostDown L when) hs hl (by decide)
      (by decide) (by simp)
    rwa [List.append_nil] at this
  have hL : L.filter (fun c => c != '\r') = L := by
    rw [List.filter_eq_self]
    intro c hc
    have : c ≠ '\r' := fun e => h1 (e ▸ hc)
    simpa using this
  have hw : '\n' ∉ when.filter (fun c => c != '\r') := fun hm => h3 (List.mem_filter.1 hm).1
  unfold bodyLines ReplaceAllNil
  rw [htrim, compose_hostDown]
  simp only [List.filter_append, hL]
  rw [show List.filter (fun c => c != '\r') "***** Host monitoring on ".toList =
        "***** Host monitoring on ".toList from by decide,
      show List.filter (fun c => c != '\r') " *****\n\nh1 is DOWN!\n\nWhen: ".toList =
        " *****".toList ++ '\n' :: ([] ++ '\n' :: ("h1 is DOWN!".toList ++ '\n' ::
          ([] ++ '\n' :: "When: ".toList))) from by decide,
      show List.filter (fun c => c != '\r') "\nHost: h1 \nInfo:\n\nping failed".toList =
        '\n' :: ("Host: h1 ".toList ++ '\n' :: ("Info:".toList ++ '\n' :: ([] ++ '\n' ::
          "ping failed".toList))) from by decide]
  have e : "***** Host monitoring on ".toList ++ (L ++ ((" *****".toList ++ '\n' :: ([] ++
        '\n' :: ("h1 is DOWN!".toList ++ '\n' :: ([] ++ '\n' :: "When: ".toList)))) ++
        (when.filter (fun c => c != '\r') ++ '\n' :: ("Host: h1 ".toList ++ '\n' ::
          ("Info:".toList ++ '\n' :: ([] ++ '\n' :: "ping failed".toList)))))) =
      ("***** Host monitoring on ".toList ++ L ++ " *****".toList) ++ '\n' :: ([] ++
        '\n' :: ("h1 is DOWN!".toList ++ '\n' :: ([] ++ '\n' ::
        (("When: ".toList ++ when.filter (fun c => c != '\r')) ++ '\n' ::
        ("Host: h1 ".toList ++ '\n' :: ("Info:".toList ++ '\n' :: ([] ++ '\n' ::
          "ping failed".toList))))))) := by
    simp [List.append_assoc]
  rw [e]
  have n1 : '\n' ∉ "***** Host monitoring on ".toList ++ L ++ " *****".toList := by
    intro hm
    rcases List.mem_append.1 hm with hm | hm
    · rcases List.mem_append.1 hm with hm | hm
      · exact absurd hm (by decide)
      · exact h2 hm
    · exact absurd hm (by decide)
  have n2 : '\n' ∉ "When: ".toList ++ when.filter (fun c => c != '\r') := by
    intro hm
    rcases List.mem_append.1 hm with hm | hm
    · exact absurd hm (by decide)
    · exact hw hm
  rw [Split_append_sep _ _ _ n1, Split_append_sep _ _ _ (by simp),
    Split_append_sep _ _ _ (by decide), Split_append_sep _ _ _ (by simp),
    Split_append_sep _ _ _ n2, Split_append_sep _ _ _ (by decide),
    Split_append_sep _ _ _ (by decide), Split_append_sep _ _ _ (by simp),
    Split_no_sep _ _ (by decide)]

theorem frame_hostDown_lines (L when : Str) (h1 : '\r' ∉ L) (h2 : '\n' ∉ L)
    (h3 : '\n' ∉ when) :
    splitCRLF (frame urlAlerts checkedAlerts alertHostDown L when) =
      ["NICK bot".toList, "USER bot 0.0.0.0 0.0.0.0 bot".toList, bannerLine L,
       "PRIVMSG #alerts :.".toList, "PRIVMSG #alerts :h1 is DOWN!".toList,
       "PRIVMSG #alerts :.".toList,
       "PRIVMSG #alerts :When: ".toList ++ when.filter (fun c => c != '\r'),
       "PRIVMSG #alerts :Host: h1 ".toList, "PRIVMSG #alerts :Info:".toList,
       "PRIVMSG #alerts :.".toList, "PRIVMSG #alerts :ping failed".toList,
       "QUIT".toList, []] := by
  have hclean := specLines_clean "bot".toList [] "#alerts".toList
    (bodyLines (compose alertHostDown L when)) (by decide) (by decide) (by decide)
    (bodyLines_clean _)
  have hf : frame urlAlerts checkedAlerts alertHostDown L when =
      encode "bot".toList [] "#alerts".toList (compose alertHostDown L when) := rfl
  rw [hf, encode_eq_specLines, splitCRLF_flatten _ (fun l hl => (hclean l hl).1),
    bodyLines_hostDown L when h1 h2 h3]
  simp [specLines, specPrivmsg, bannerLine, List.append_assoc]

theorem LastIndexByte_some (s : Str) (c : Char) (i : Nat) (h : LastIndexByte s c = some i) :
    ∃ a b, s = a ++ c :: b ∧ a.length = i ∧ c ∉ b := by
  induction s generalizing i with
  | nil => exact absurd h (by simp [LastIndexByte])
  | cons x xs ih =>
    unfold LastIndexByte at h
    cases hx : LastIndexByte xs c with
    | some j =>
      rw [hx] at h
      simp only [Option.some.injEq] at h
      obtain ⟨a, b, e, hl, hb⟩ := ih j hx
      exact ⟨x :: a, b, by rw [e]; rfl, by simp [hl, h], hb⟩
    | none =>
      rw [hx] at h
      simp only at h
      by_cases hc : x = c
      · rw [if_pos hc] at h
        simp only [Option.some.injEq] at h
        refine ⟨[], xs, by rw [hc]; rfl, by simp [h], ?_⟩
        intro hm
        obtain ⟨a, b, e⟩ := List.append_of_mem hm
        have := LastIndexByte_append a b c
        by_cases hb : c ∈ b
        · -- take the last occurrence instead
          clear this
          have hne : LastIndexByte xs c ≠ none := by
            clear hx h ih e
            induction xs with
            | nil => exact absurd hm (by simp)
            | cons y ys ihy =>
              unfold LastIndexByte
              cases hy : LastIndexByte ys c with
              | some k => simp
              | none =>
                simp only
                by_cases hyc : y = c
                · simp [hyc]
                · have : c ∈ ys := by
                    rcases List.mem_cons.1 hm with e | e
                    · exact absurd e.symm hyc
                    · exact e
                  exact absurd hy (ihy this)
          exact hne hx
        · rw [e, this hb] at hx
          exact absurd hx (by simp)
      · rw [if_neg hc] at h
        exact absurd h (by simp)

theorem IndexByte_some (s : Str) (c : Char) (i : Nat) (h : IndexByte s c = some i) :
    ∃ a b, s = a ++ c :: b ∧ a.length = i ∧ c ∉ a := by
  induction s generalizing i with
  | nil => exact absurd h (by simp [IndexByte])
  | cons x xs ih =>
    unfold IndexByte at h
    by_cases hc : x = c
    · rw [if_pos hc] at h
      simp only [Option.some.injEq] at h
      exact ⟨[], xs, by rw [hc]; rfl, by simp [h], by simp⟩
    · rw [if_neg hc] at h
      cases hx : IndexByte xs c with
      | none =>
        rw [hx] at h
        exact absurd h (by simp)
      | some j =>
        rw [hx] at h
        simp only [Option.map_some', Option.some.injEq] at h
        obtain ⟨a, b, e, hl, ha⟩ := ih j hx
        refine ⟨x :: a, b, by rw [e]; rfl, by simp [hl, h], ?_⟩
        intro hm
        rcases List.mem_cons.1 hm with e' | e'
        · exact hc e'.symm
        · exact ha e'

theorem SplitHostPort_some (s h p : Str) (hs : SplitHostPort s = some (h, p)) :
    hostWithPort s h p := by
  unfold SplitHostPort at hs
  cases hl : LastIndexByte s ':' with
  | none =>
    rw [hl] at hs
    exact absurd hs (by simp)
  | some i =>
    rw [hl] at hs
    simp only at hs
    obtain ⟨a, b, e, hal, hb⟩ := LastIndexByte_some s ':' i hl
    by_cases hh : s.head? = some '['
    · rw [if_pos hh] at hs
      cases hi : IndexByte s ']' with
      | none =>
        rw [hi] at hs
        exact absurd hs (by simp)
      | some en =>
        rw [hi] at hs
        simp only at hs
        obtain ⟨a', b', e', hal', ha'⟩ := IndexByte_some s ']' en hi
        by_cases h1 : en + 1 = s.length
        · rw [if_pos h1] at hs
          exact absurd hs (by simp)
        · rw [if_neg h1] at hs
          by_cases h2 : en + 1 = i
          · rw [if_pos h2] at hs
            unfold splitHostPortTail at hs
            by_cases m1 : '[' ∈ s.drop 1
            · rw [if_pos m1] at hs
              exact absurd hs (by simp)
            · rw [if_neg m1] at hs
              by_cases m2 : ']' ∈ s.drop (en + 1)
              · rw [if_pos m2] at hs
                exact absurd hs (by simp)
              · rw [if_neg m2] at hs
                simp only [Option.some.injEq, Prod.mk.injEq] at hs
                obtain ⟨hhost, hport⟩ := hs
                -- shape of a'
                cases a' with
                | nil =>
                  rw [e'] at hh
                  simp at hh
                | cons x h' =>
                  have hx : x = '[' := by
                    rw [e'] at hh
                    simpa using hh
                  subst hx
                  -- a = a' ++ [']'] and b' = ':' :: b
                  have hlen : (('[' :: h') ++ [']']).length = a.length := by
                    simp only [List.length_append, List.length_singleton]
                    rw [hal, hal']
                    exact h2
                  have e2 : (('[' :: h') ++ [']']) ++ b' = a ++ ':' :: b := by
                    rw [← e, e']
                    simp
                  obtain ⟨ea, eb⟩ := List.append_inj e2 hlen
                  have hh' : h = h' := by
                    rw [← hhost, e', ← hal']
                    simp [List.take_left']
                  have hp' : p = b := by
                    rw [← hport, e, ← hal]
                    have : a ++ ':' :: b = (a ++ [':']) ++ b := by simp
                    rw [this]
                    have hl2 : a.length + 1 = (a ++ [':']).length := by simp
                    rw [hl2, List.drop_left]
                  subst hh' hp'
                  refine Or.inr ⟨by rw [e', eb]; simp, ?_, ?_, hb, ?_, ?_⟩
                  · intro hm
                    apply m1
                    rw [e']
                    simp [hm]
                  · intro hm
                    exact ha' (List.mem_cons_of_mem _ hm)
                  · intro hm
                    apply m1
                    rw [e', eb]
                    simp [hm]
                  · intro hm
                    apply m2
                    rw [e', eb, ← hal']
                    have : ('[' :: h) ++ ']' :: ':' :: p = (('[' :: h) ++ [']']) ++ ':' :: p := by
                      simp
                    rw [this]
                    have hl3 : ('[' :: h).length + 1 = (('[' :: h) ++ [']']).length := by simp
                    rw [hl3, List.drop_left]
                    simp [hm]
          · rw [if_neg h2] at hs
            exact absurd hs (by simp)
    · rw [if_neg hh] at hs
      by_cases hc : ':' ∈ s.take i
      · rw [if_pos hc] at hs
        exact absurd hs (by simp)
      · rw [if_neg hc] at hs
        unfold splitHostPortTail at hs
        simp only [List.drop_zero] at hs
        by_cases m1 : '[' ∈ s
        · rw [if_pos m1] at hs
          exact absurd hs (by simp)
        · rw [if_neg m1] at hs
          by_cases m2 : ']' ∈ s
          · rw [if_pos m2] at hs
            exact absurd hs (by simp)
          · rw [if_neg m2] at hs
            simp only [Option.some.injEq, Prod.mk.injEq] at hs
            obtain ⟨hhost, hport⟩ := hs
            have ht : s.take i = a := by
              rw [e, ← hal]
              simp
            have hd : s.drop (i + 1) = b := by
              rw [e, ← hal]
              have : a ++ ':' :: b = (a ++ [':']) ++ b := by simp
              rw [this]
              have hl2 : a.length + 1 = (a ++ [':']).length := by simp
              rw [hl2, List.drop_left]
            rw [ht] at hhost hc
            rw [hd] at hport
            subst hhost hport
            rw [e] at m1 m2
            refine Or.inl ⟨e, hc, ?_, ?_, hb, ?_, ?_⟩
            · intro hm; exact m1 (by simp [hm])
            · intro hm; exact m2 (by simp [hm])
            · intro hm; exact m1 (by simp [hm])
            · intro hm; exact m2 (by simp [hm])

theorem SplitHostPort_iff (s h p : Str) :
    SplitHostPort s = some (h, p) ↔ hostWithPort s h p := by
  constructor
  · exact SplitHostPort_some s h p
  · rintro (⟨e, h1, h2, h3, p1, p2, p3⟩ | ⟨e, h2, h3, p1, p2, p3⟩)
    · rw [e]; exact SplitHostPort_plain h p h1 h2 h3 p1 p2 p3
    · rw [e]; exact SplitHostPort_bracket h p h2 h3 p1 p2 p3

theorem hostPort_cases (ircUrl : URL) (dp : Str) :
    (∀ h p, hostWithPort ircUrl.Host h p → hostPort ircUrl dp = (h, p)) ∧
    ((¬ ∃ h p, hostWithPort ircUrl.Host h p) → hostPort ircUrl dp = (ircUrl.Host, dp)) := by
  constructor
  · intro h p hw
    unfold hostPort
    rw [(SplitHostPort_iff _ h p).2 hw]
  · intro hn
    unfold hostPort
    cases hs : SplitHostPort ircUrl.Host with
    | none => rfl
    | some hp =>
      exfalso
      exact hn ⟨hp.1, hp.2, (SplitHostPort_iff _ _ _).1 hs⟩

theorem no_colon_no_port (s : Str) (h : ':' ∉ s) : ¬ ∃ h p, hostWithPort s h p := by
  rintro ⟨a, b, hw⟩
  have := (SplitHostPort_iff s a b).2 hw
  rw [SplitHostPort_no_colon s h] at this
  exact absurd this (by simp)

theorem specStatus_clean (a : Alert) (hd : '\n' ∉ a.hDisplayName) (hst : '\n' ∉ a.state)
    (hsd : a.reportService = true → '\n' ∉ a.sDisplayName) : '\n' ∉ specStatus a := by
  have hp : '\n' ∉ pMark a.state := by
    unfold pMark
    split <;> decide
  unfold specStatus
  cases hr : a.reportService with
  | true =>
    have := hsd hr
    simp [this, hd, hst, hp]
  | false => simp [hd, hst, hp]

/-! ## The encoded frame -/

/-- C1 (amended): for every descriptor the checks accept whose user name,
password and path hold no CR and no LF, every alert and every local host
name (and time text), the frame cut at its CR LF pairs is exactly the
optional PASS line, the NICK line, the USER line, the PRIVMSG lines and
QUIT, and none of these lines holds a CR or an LF. -/
theorem frame_lines_clean (ircUrl : URL) (c : Checked) (a : Alert) (hostname when : Str)
    (hc : checkUrl ircUrl = .ok c)
    (hu : '\r' ∉ Username ircUrl.User ∧ '\n' ∉ Username ircUrl.User)
    (hp : '\r' ∉ Password ircUrl.User ∧ '\n' ∉ Password ircUrl.User)
    (hr : '\r' ∉ ircUrl.Path ∧ '\n' ∉ ircUrl.Path) :
    LinesClean (frame ircUrl c a hostname when)
      (specLines c.user (Password ircUrl.User) (recipient c)
        (bodyLines (compose a hostname when))) := by
  obtain ⟨_, _, hcu, _, _, hpath, _⟩ := checkUrl_ok ircUrl c hc
  obtain ⟨_, _, _, hpe⟩ := (ircUrlPathStructure_some _ _ _).1 hpath
  have hm2 : '\r' ∉ c.match2 ∧ '\n' ∉ c.match2 := by
    rw [hpe] at hr
    constructor
    · intro h; exact hr.1 (by simp [h])
    · intro h; exact hr.2 (by simp [h])
  have hclean := specLines_clean c.user (Password ircUrl.User) (recipient c)
    (bodyLines (compose a hostname when)) (by rw [hcu]; exact hu) hp (recipient_clean c hm2)
    (bodyLines_clean _)
  refine ⟨?_, hclean⟩
  unfold frame
  rw [encode_eq_specLines]
  exact splitCRLF_flatten _ (fun l hl => (hclean l hl).1)

/-- C1, an accepted input for `frame_lines_clean`: the descriptor
`irc://bot@irc.example/channel/alerts` with a host alert. -/
theorem frame_lines_clean_witness :
    checkUrl urlAlerts = .ok checkedAlerts ∧
    LinesClean (frame urlAlerts checkedAlerts alertHostDown "L".toList "T".toList)
      (specLines checkedAlerts.user (Password urlAlerts.User) (recipient checkedAlerts)
        (bodyLines (compose alertHostDown "L".toList "T".toList))) :=
  ⟨by decide, frame_lines_clean urlAlerts checkedAlerts alertHostDown _ _ (by decide)
    (by decide) (by decide) (by decide)⟩

/-- C1 as stated fails: the descriptor
`irc://bot%0D%0AQUIT@irc.example/channel/alerts` passes every check, the
host alert is accepted, and the frame cut at its CR LF pairs starts with the
pieces `NICK bot`, `QUIT`, `USER bot`; the NICK line of the frame holds a CR
and an LF. -/
theorem frame_lines_injected :
    checkUrl urlInjected = .ok checkedInjected ∧
    normalize flagsHostDown = .ok alertHostDown ∧
    (splitCRLF (frame urlInjected checkedInjected alertHostDown "L".toList "T".toList)).take 3
      = ["NICK bot".toList, "QUIT".toList, "USER bot".toList] ∧
    ¬ LinesClean (frame urlInjected checkedInjected alertHostDown "L".toList "T".toList)
      (specLines checkedInjected.user (Password urlInjected.User) (recipient checkedInjected)
        (bodyLines (compose alertHostDown "L".toList "T".toList))) := by
  decide

/-- C2: for every message body and every recipient without CR and LF, the
PRIVMSG part of the frame is a sequence of lines, one for each line of the
body, each starting with `PRIVMSG <recipient> :`, each followed by one
CR LF, and none holding a CR or an LF before that terminator. -/
theorem privmsg_lines_clean (user pass rcpt msg : Str)
    (hr : '\r' ∉ rcpt) (hn : '\n' ∉ rcpt) :
    ∃ ts : List Str,
      encode user pass rcpt msg =
        registration user pass ++ (ts.map (fun t => t ++ "\r\n".toList)).flatten ++
          "QUIT\r\n".toList ∧
      ts.length = (bodyLines msg).length ∧
      ∀ t ∈ ts, ("PRIVMSG ".toList ++ rcpt ++ " :".toList) <+: t ∧ '\r' ∉ t ∧ '\n' ∉ t := by
  refine ⟨(bodyLines msg).map (specPrivmsg rcpt), ?_, by simp, ?_⟩
  · rw [encode_eq, map_writePrivmsg]
  · intro t ht
    obtain ⟨l, hl, rfl⟩ := List.mem_map.1 ht
    have := specPrivmsg_clean rcpt l ⟨hr, hn⟩ (bodyLines_clean msg l hl)
    exact ⟨⟨_, rfl⟩, this.1, this.2⟩

/-- C2, an instance of `privmsg_lines_clean`: the body `line1 CR LF line2`
sent to `#ops`. -/
theorem privmsg_lines_clean_witness :
    ('\r' ∉ "#ops".toList ∧ '\n' ∉ "#ops".toList) ∧
    ∃ ts : List Str,
      encode "bot".toList [] "#ops".toList "line1\r\nline2".toList =
        registration "bot".toList [] ++ (ts.map (fun t => t ++ "\r\n".toList)).flatten ++
          "QUIT\r\n".toList ∧
      ts.length = (bodyLines "line1\r\nline2".toList).length ∧
      ∀ t ∈ ts, ("PRIVMSG ".toList ++ "#ops".toList ++ " :".toList) <+: t ∧
        '\r' ∉ t ∧ '\n' ∉ t :=
  ⟨by decide, privmsg_lines_clean "bot".toList [] "#ops".toList "line1\r\nline2".toList
    (by decide) (by decide)⟩

/-- C3: for every user, password, recipient and message body the frame is
the concatenation of `PASS <password> CR LF` when the password is not empty
(nothing otherwise), `NICK <user> CR LF`,
`USER <user> 0.0.0.0 0.0.0.0 <user> CR LF`, the PRIVMSG lines, and
`QUIT CR LF`, in this order. -/
theorem frame_is_concatenation (user pass rcpt msg : Str) :
    encode user pass rcpt msg =
      (if pass = [] then [] else "PASS ".toList ++ pass ++ "\r\n".toList) ++
      ("NICK ".toList ++ user ++ "\r\n".toList) ++
      ("USER ".toList ++ user ++ " 0.0.0.0 0.0.0.0 ".toList ++ user ++ "\r\n".toList) ++
      ((bodyLines msg).map (fun l => "PRIVMSG ".toList ++ rcpt ++ " :".toList ++
        (if l = [] then ".".toList else l) ++ "\r\n".toList)).flatten ++
      "QUIT\r\n".toList := by
  rw [encode_eq]
  have h : (bodyLines msg).map (writePrivmsg rcpt []) =
      (bodyLines msg).map (fun l => "PRIVMSG ".toList ++ rcpt ++ " :".toList ++
        (if l = [] then ".".toList else l) ++ "\r\n".toList) := by
    apply List.map_congr_left
    intro l _
    rw [writePrivmsg_nil]
    rfl
  rw [h]
  by_cases hp : pass = []
  · simp [registration, hp]
  · simp [registration, hp]

/-- C4: the recipient is `#` followed by the name in channel mode and the
name itself in direct mode; and the message body is white space, a trimmed
body that neither starts nor ends with white space, and white space again,
such that the PRIVMSG lines of the frame are, in order, one
`PRIVMSG <recipient> :<line> CR LF` for each of the lines into which the
trimmed body without its CRs falls at its LFs (an empty line written as
`.`); their number is the number of LFs of the trimmed body plus one. -/
theorem privmsg_lines_follow_body (c : Checked) (user pass msg : Str) :
    (c.match1 = "channel".toList → recipient c = '#' :: c.match2) ∧
    (c.match1 = "direct".toList → recipient c = c.match2) ∧
    ∃ (pre body post : Str) (ls : List Str),
      msg = pre ++ body ++ post ∧
      (∀ ch ∈ pre, isSpace ch = true) ∧ (∀ ch ∈ post, isSpace ch = true) ∧
      (∀ ch, body.head? = some ch → isSpace ch = false) ∧
      (∀ ch, body.getLast? = some ch → isSpace ch = false) ∧
      List.intercalate ['\n'] ls = body.filter (fun ch => ch != '\r') ∧
      (∀ l ∈ ls, '\n' ∉ l) ∧
      ls.length = body.count '\n' + 1 ∧
      encode user pass (recipient c) msg =
        registration user pass ++
        (ls.map (fun l => specPrivmsg (recipient c) l ++ "\r\n".toList)).flatten ++
        "QUIT\r\n".toList := by
  refine ⟨?_, ?_, ?_⟩
  · intro h; simp [recipient, h]
  · intro h
    have : c.match1 ≠ "channel".toList := by rw [h]; decide
    unfold recipient
    rw [if_neg this]
  · obtain ⟨pre, post, hd, hpre, hpost⟩ := TrimSpace_decompose msg
    refine ⟨pre, TrimSpace msg, post, bodyLines msg, hd, hpre, hpost, TrimSpace_head msg,
      TrimSpace_getLast msg, Split_intercalate _ _, Split_not_mem _ _, bodyLines_length msg, ?_⟩
    rw [encode_eq, map_writePrivmsg, List.map_map]
    rfl

/-- C4, an instance of `privmsg_lines_follow_body` in channel mode: for the
descriptor path `/channel/alerts` the recipient is `#alerts`. -/
theorem privmsg_lines_follow_body_witness :
    checkedAlerts.match1 = "channel".toList ∧ recipient checkedAlerts = "#alerts".toList :=
  ⟨by decide, (privmsg_lines_follow_body checkedAlerts [] [] []).1 (by decide)⟩

/-- C5: the frame is the registration, one `PRIVMSG <recipient> :<payload>
CR LF` for each line of the body, and QUIT, where every payload is not
empty, the payload of an empty body line is exactly `.` and the payload of
any other line is the line; so the body `a LF LF b`, with its blank line,
is sent as the payloads `a`, `.`, `b`. -/
theorem privmsg_payload_nonempty (user pass rcpt msg : Str) :
    (∃ payloads : List Str,
      List.Forall₂ (fun l p => p ≠ [] ∧ (l = [] → p = ".".toList) ∧ (l ≠ [] → p = l))
        (bodyLines msg) payloads ∧
      encode user pass rcpt msg =
        registration user pass ++
        (payloads.map (fun p => "PRIVMSG ".toList ++ rcpt ++ " :".toList ++ p ++
          "\r\n".toList)).flatten ++
        "QUIT\r\n".toList) ∧
    encode "bot".toList [] "#ops".toList "a\n\nb".toList =
      ("NICK bot\r\nUSER bot 0.0.0.0 0.0.0.0 bot\r\n".toList ++
       "PRIVMSG #ops :a\r\nPRIVMSG #ops :.\r\nPRIVMSG #ops :b\r\nQUIT\r\n".toList) := by
  refine ⟨⟨(bodyLines msg).map (fun l => if l = [] then ".".toList else l), ?_, ?_⟩, by decide⟩
  · rw [List.forall₂_map_right_iff, List.forall₂_same]
    intro l _
    by_cases h : l = []
    · simp [h]
    · simp [h]
  · rw [encode_eq]
    have h : (bodyLines msg).map (writePrivmsg rcpt []) =
        ((bodyLines msg).map (fun l => if l = [] then ".".toList else l)).map
          (fun p => "PRIVMSG ".toList ++ rcpt ++ " :".toList ++ p ++ "\r\n".toList) := by
      rw [List.map_map]
      apply List.map_congr_left
      intro l _
      rw [writePrivmsg_nil]
      rfl
    rw [h]

/-! ## Alert normalisation -/

/-- C6: with "non-empty" read as the program reads it (`empty` is false):
if some service field is non-empty, normalisation succeeds with
`reportService = true` when host.name, service.name and service.state are
non-empty and otherwise complains; else if some host field is non-empty, it
succeeds with `reportService = false` when host.name and host.state are
non-empty and otherwise complains; else it complains. -/
theorem scope_decision (f : Flags) :
    (¬ (empty f.sName = true ∧ empty f.sDisplayName = true ∧ empty f.sActionUrl = true ∧
          empty f.sState = true ∧ empty f.sOutput = true) →
      if empty f.hName = false ∧ empty f.sName = false ∧ empty f.sState = false then
        ∃ a, normalize f = .ok a ∧ a.reportService = true
      else normalize f = .error .serviceIncomplete) ∧
    ((empty f.sName = true ∧ empty f.sDisplayName = true ∧ empty f.sActionUrl = true ∧
          empty f.sState = true ∧ empty f.sOutput = true) →
      ¬ (empty f.hName = true ∧ empty f.hDisplayName = true ∧ empty f.hActionUrl = true ∧
          empty f.hState = true ∧ empty f.hOutput = true) →
      if empty f.hName = false ∧ empty f.hState = false then
        ∃ a, normalize f = .ok a ∧ a.reportService = false
      else normalize f = .error .hostIncomplete) ∧
    ((empty f.sName = true ∧ empty f.sDisplayName = true ∧ empty f.sActionUrl = true ∧
          empty f.sState = true ∧ empty f.sOutput = true) →
      (empty f.hName = true ∧ empty f.hDisplayName = true ∧ empty f.hActionUrl = true ∧
          empty f.hState = true ∧ empty f.hOutput = true) →
      normalize f = .error .nothingGiven) := by
  refine ⟨?_, ?_, ?_⟩
  · intro hs
    have hs' : (!empty f.sName || !empty f.sDisplayName || !empty f.sActionUrl ||
        !empty f.sState || !empty f.sOutput) = true := by
      by_contra hc
      apply hs
      simp at hc
      simpa [and_assoc] using hc
    unfold normalize checkFields
    rw [if_pos hs']
    by_cases hreq : empty f.hName = false ∧ empty f.sName = false ∧ empty f.sState = false
    · rw [if_pos hreq]
      obtain ⟨h1, h2, h3⟩ := hreq
      simp only [h1, h2, h3, Bool.or_self, Bool.false_eq_true, if_false]
      split <;> exact ⟨_, rfl, rfl⟩
    · rw [if_neg hreq]
      have : (empty f.hName || empty f.sName || empty f.sState) = true := by
        by_contra hc
        apply hreq
        simpa [and_assoc] using hc
      rw [if_pos this]
  · intro hs hh
    obtain ⟨s1, s2, s3, s4, s5⟩ := hs
    have hh' : (!empty f.hName || !empty f.hDisplayName || !empty f.hActionUrl ||
        !empty f.hState || !empty f.hOutput) = true := by
      by_contra hc
      apply hh
      simp at hc
      simpa [and_assoc] using hc
    unfold normalize checkFields
    simp only [s1, s2, s3, s4, s5, Bool.not_true, Bool.or_self, Bool.false_eq_true, if_false]
    rw [if_pos hh']
    by_cases hreq : empty f.hName = false ∧ empty f.hState = false
    · rw [if_pos hreq]
      obtain ⟨h1, h2⟩ := hreq
      simp only [h1, h2, Bool.or_self, Bool.false_eq_true, if_false]
      split <;> exact ⟨_, rfl, rfl⟩
    · rw [if_neg hreq]
      have : (empty f.hName || empty f.hState) = true := by
        by_contra hc
        apply hreq
        simpa [and_assoc] using hc
      rw [if_pos this]
  · intro hs hh
    obtain ⟨s1, s2, s3, s4, s5⟩ := hs
    obtain ⟨h1, h2, h3, h4, h5⟩ := hh
    unfold normalize checkFields
    simp [s1, s2, s3, s4, s5, h1, h2, h3, h4, h5]

/-- C6, two instances of `scope_decision`: host.name and host.state alone
give a host report; no field at all is refused. -/
theorem scope_decision_witness :
    (∃ a, normalize flagsHostDown = .ok a ∧ a.reportService = false) ∧
    normalize { flagsHostDown with hName := [], hState := [], hOutput := [] }
      = .error .nothingGiven :=
  ⟨by simpa using (scope_decision flagsHostDown).2.1 (by decide) (by decide),
   (scope_decision { flagsHostDown with hName := [], hState := [], hOutput := [] }).2.2
     (by decide) (by decide)⟩

/-- C7: for every accepted alert the host display name is the supplied
host.display_name when that is not blank and host.name when it is, in both
scopes; in a service report the service display name is the supplied
service.display_name when not blank and service.name when blank; neither
of these display names is blank. -/
theorem display_name_defaults (f : Flags) (a : Alert) (h : normalize f = .ok a) :
    a.hDisplayName = (if empty f.hDisplayName then f.hName else f.hDisplayName) ∧
    (a.reportService = true →
      a.sDisplayName = (if empty f.sDisplayName then f.sName else f.sDisplayName)) ∧
    empty a.hDisplayName = false ∧
    (a.reportService = true → empty a.sDisplayName = false) := by
  unfold normalize at h
  split at h
  · exact absurd h (by simp)
  · rename_i a0 h0
    injection h with h
    obtain ⟨e1, e2, hn, hs, _⟩ := checkFields_ok f a0 h0
    by_cases hd : empty a0.hDisplayName = true
    · rw [if_pos hd] at h
      subst h
      rw [e2] at hd
      simp only [hd, if_true]
      refine ⟨e1, fun hr => (hs hr).2.2, by rw [e1]; exact hn, fun hr => ?_⟩
      obtain ⟨h1, _, h3⟩ := hs hr
      show empty a0.sDisplayName = false
      rw [h3]
      split
      · exact h1
      · rename_i hne
        simpa using hne
    · rw [if_neg hd] at h
      subst h
      have hd' : empty f.hDisplayName = false := by rw [e2] at hd; simpa using hd
      simp only [hd', Bool.false_eq_true, if_false]
      refine ⟨e2, fun hr => (hs hr).2.2, by rw [e2]; exact hd', fun hr => ?_⟩
      obtain ⟨h1, _, h3⟩ := hs hr
      rw [h3]
      split
      · exact h1
      · rename_i hne
        simpa using hne

/-- C7, an instance of `display_name_defaults`: service.name=db,
service.state=CRITICAL and host.name=h1 alone give a service report whose
service display name is `db` and whose host display name is `h1`. -/
theorem display_name_defaults_witness :
    normalize flagsServiceDb = .ok alertServiceDb ∧
    alertServiceDb.reportService = true ∧
    alertServiceDb.hDisplayName = "h1".toList ∧
    alertServiceDb.sDisplayName = "db".toList :=
  ⟨by decide, by decide,
   (display_name_defaults flagsServiceDb alertServiceDb (by decide)).1,
   (display_name_defaults flagsServiceDb alertServiceDb (by decide)).2.1 (by decide)⟩

/-! ## The connection descriptor -/

/-- C8 (amended): for every descriptor that passes the checks, the scheme is
`irc` (then `ssl` is false and the default port is `6667`) or `ircs` (then
`ssl` is true and the default port is `6697`), and `run` dials once, with
TLS as `ssl` says, the address `net.JoinHostPort(host, port)`.  When the
host part carries an explicit port, that is, when it is `h:PORT` with
neither colon nor bracket in `h` and `PORT`, or `[h]:PORT` with no bracket
in `h` and neither colon nor bracket in `PORT`, then the host is `h` and
the port is `PORT`, whatever the scheme (and the address is the host part
itself, for `h:PORT` and for `[h]:PORT` with a colon in `h`).  For every
other host part the port is the default port; a host part without a colon
is such a host part and is dialled as it stands. -/
theorem scheme_and_port (ircUrl : URL) (c : Checked) (hc : checkUrl ircUrl = .ok c) :
    (ircUrl.Scheme = "irc".toList ∨ ircUrl.Scheme = "ircs".toList) ∧
    (ircUrl.Scheme = "irc".toList → c.ssl = false ∧ c.defaultPort = "6667".toList) ∧
    (ircUrl.Scheme = "ircs".toList → c.ssl = true ∧ c.defaultPort = "6697".toList) ∧
    (∀ (w : World) (a : Alert), empty w.IRC_URL = false → normalize w.flags = .ok a →
      w.urlParse w.IRC_URL = some ircUrl →
      ∃ skip, (run w).2.filter isDial =
        [Effect.dial c.ssl skip (JoinHostPort (hostPort ircUrl c.defaultPort).1
          (hostPort ircUrl c.defaultPort).2)]) ∧
    (∀ h p : Str, hostWithPort ircUrl.Host h p → hostPort ircUrl c.defaultPort = (h, p)) ∧
    (∀ h p : Str, hostWithPort ircUrl.Host h p →
      (ircUrl.Host = h ++ ':' :: p ∨ ':' ∈ h) → JoinHostPort h p = ircUrl.Host) ∧
    ((¬ ∃ h p, hostWithPort ircUrl.Host h p) →
      (hostPort ircUrl c.defaultPort).2 = c.defaultPort) ∧
    (':' ∉ ircUrl.Host →
      (¬ ∃ h p, hostWithPort ircUrl.Host h p) ∧
      hostPort ircUrl c.defaultPort = (ircUrl.Host, c.defaultPort)) := by
  obtain ⟨_, hs, _, _, _, _, _⟩ := checkUrl_ok ircUrl c hc
  have hs' := (schemeSwitch_some _ _ _).1 hs
  obtain ⟨hp1, hp2⟩ := hostPort_cases ircUrl c.defaultPort
  refine ⟨?_, ?_, ?_, ?_, hp1, ?_, ?_, ?_⟩
  · rcases hs' with ⟨h, _, _⟩ | ⟨h, _, _⟩
    · exact Or.inl h
    · exact Or.inr h
  · intro h
    rcases hs' with ⟨_, h1, h2⟩ | ⟨h', _, _⟩
    · exact ⟨h1, h2⟩
    · rw [h] at h'
      exact absurd h' (by decide)
  · intro h
    rcases hs' with ⟨h', _, _⟩ | ⟨_, h1, h2⟩
    · rw [h] at h'
      exact absurd h' (by decide)
    · exact ⟨h1, h2⟩
  · intro w a h1 h2 h3
    exact ⟨_, (run_dials w ircUrl a c h1 h2 h3 hc).1⟩
  · intro h p hw hor
    unfold JoinHostPort
    rcases hw with ⟨e, h1, _⟩ | ⟨e, h2, h3, _⟩
    · rw [if_neg h1, e]
    · rcases hor with e' | hcol
      · exfalso
        rw [e] at e'
        cases h with
        | nil => simp at e'
        | cons x xs =>
          simp only [List.cons_append, List.cons.injEq] at e'
          exact h2 (by rw [← e'.1]; simp)
      · rw [if_pos hcol, e]
        simp
  · intro hn
    rw [hp2 hn]
  · intro hcol
    have hn := no_colon_no_port ircUrl.Host hcol
    exact ⟨hn, hp2 hn⟩

/-- C8, two instances of `scheme_and_port`: `irc://bot@irc.example/...` is
dialled at `irc.example`, port `6667`, without TLS;
`ircs://bot@irc.example:7000/...` at `irc.example`, port `7000`, with TLS. -/
theorem scheme_and_port_witness :
    (checkUrl urlAlerts = .ok checkedAlerts ∧ checkedAlerts.ssl = false ∧
      hostPort urlAlerts checkedAlerts.defaultPort = ("irc.example".toList, "6667".toList)) ∧
    (checkUrl urlWithPort = .ok checkedWithPort ∧ checkedWithPort.ssl = true ∧
      hostWithPort urlWithPort.Host "irc.example".toList "7000".toList ∧
      hostPort urlWithPort checkedWithPort.defaultPort =
        ("irc.example".toList, "7000".toList)) :=
  have hw : hostWithPort urlWithPort.Host "irc.example".toList "7000".toList :=
    Or.inl ⟨by decide, by decide, by decide, by decide, by decide, by decide, by decide⟩
  ⟨⟨by decide, ((scheme_and_port urlAlerts checkedAlerts (by decide)).2.1 (by decide)).1,
    ((scheme_and_port urlAlerts checkedAlerts (by decide)).2.2.2.2.2.2.2 (by decide)).2⟩,
   ⟨by decide, ((scheme_and_port urlWithPort checkedWithPort (by decide)).2.2.1 (by decide)).1,
    hw,
    (scheme_and_port urlWithPort checkedWithPort (by decide)).2.2.2.2.1
      "irc.example".toList "7000".toList hw⟩⟩

/-- C8 as stated fails: the URL of `irc://bot@a:b:7000/direct/x` passes every
check, its host part `a:b:7000` ends in the explicit port `:7000`, and yet
the port dialled is the default `6667` and the host dialled is the whole
host part: `run` dials `[a:b:7000]:6667`. -/
theorem explicit_port_not_dialled :
    checkUrl urlColons = .ok checkedColons ∧
    urlColons.Host = "a:b".toList ++ ':' :: "7000".toList ∧
    hostPort urlColons checkedColons.defaultPort = ("a:b:7000".toList, "6667".toList) ∧
    (hostPort urlColons checkedColons.defaultPort).2 ≠ "7000".toList ∧
    (run (worldOf flagsHostDown urlColons)).2.filter isDial =
      [Effect.dial false false "[a:b:7000]:6667".toList] := by
  decide

/-- C10, the failing input: the URL of `irc://bot@:6667/direct/x` passes
every check of lines 86-117 (its host part `:6667` is not blank), the host
that lines 191-197 dial is the empty string, at port `6667`, and `run` dials
the address `:6667` and ends with exit code 0. -/
theorem dialled_host_empty :
    checkUrl urlNoHost = .ok checkedNoHost ∧
    hostPort urlNoHost checkedNoHost.defaultPort = ([], "6667".toList) ∧
    (run (worldOf flagsHostDown urlNoHost)).1 = 0 ∧
    (run (worldOf flagsHostDown urlNoHost)).2.head? =
      some (Effect.dial false false ":6667".toList) := by
  decide

/-! ## The run as a whole -/

/-- C15: `run` is a function from its inputs to an exit code and the trace
of the effects it attempts.  When some validation fails (`IRC_URL` blank,
alert fields refused, URL or query not parsable, bad scheme, blank user or
host, bad path) the run is one complaint, exit code 2, and the trace holds
no dial; when every validation passes the trace holds one dial and the exit
code is not 2.  So a dial is attempted exactly when every validation has
passed. -/
theorem validation_before_dial (w : World) :
    (¬ validated w →
      (run w).1 = 2 ∧ (∃ c, (run w).2 = [Effect.complain c]) ∧
      ∀ e ∈ (run w).2, isDial e = false) ∧
    (validated w → (∃ e, (run w).2.filter isDial = [e]) ∧ (run w).1 ≠ 2) ∧
    ((∃ e ∈ (run w).2, isDial e = true) ↔ validated w) := by
  have hno : ¬ validated w →
      (run w).1 = 2 ∧ (∃ c, (run w).2 = [Effect.complain c]) ∧
      ∀ e ∈ (run w).2, isDial e = false := by
    intro h
    obtain ⟨c, hc⟩ := run_not_validated w h
    rw [hc]
    refine ⟨rfl, ⟨c, rfl⟩, ?_⟩
    intro e he
    simp only [List.mem_singleton] at he
    subst he
    rfl
  have hyes : validated w → (∃ e, (run w).2.filter isDial = [e]) ∧ (run w).1 ≠ 2 := by
    intro h
    obtain ⟨h1, h2⟩ := run_validated w h
    exact ⟨h1, by omega⟩
  refine ⟨hno, hyes, ?_⟩
  constructor
  · rintro ⟨e, he, hd⟩
    by_contra hv
    have := (hno hv).2.2 e he
    rw [this] at hd
    exact absurd hd (by simp)
  · intro hv
    obtain ⟨e, he⟩ := (hyes hv).1
    have hm : e ∈ (run w).2.filter isDial := by rw [he]; simp
    rw [List.mem_filter] at hm
    exact ⟨e, hm.1, hm.2⟩

/-- C15, an instance of `validation_before_dial`: the path `/room/ops` fails
the validation, and the run ends with exit code 2 without a dial. -/
theorem validation_before_dial_witness :
    ¬ validated (worldOf flagsHostDown urlRoomOps) ∧
    (run (worldOf flagsHostDown urlRoomOps)).1 = 2 ∧
    ∀ e ∈ (run (worldOf flagsHostDown urlRoomOps)).2, isDial e = false :=
  have hv : ¬ validated (worldOf flagsHostDown urlRoomOps) := by
    rintro ⟨_, _, u, hu, _, hf⟩
    have e : u = urlRoomOps := by
      have : some urlRoomOps = some u := hu
      injection this with this
      exact this.symm
    subst e
    exact hf (Or.inr (Or.inr (Or.inr
      ((ircUrlPathStructure_none "/room/ops".toList).1 (by decide)))))
  ⟨hv, ((validation_before_dial (worldOf flagsHostDown urlRoomOps)).1 hv).1,
    ((validation_before_dial (worldOf flagsHostDown urlRoomOps)).1 hv).2.2⟩

/-- C11: for every accepted descriptor the run dials once, with TLS exactly
when the scheme is `ircs`, and with certificate verification switched off
exactly when the scheme is `ircs` and the query parameter `insecure`, as
`url.Values.Get` returns it, is the literal `1`.  For a query that is the
one parameter `insecure=<v>` the condition is `<v> = 1`; without a query
the parameter is not `1`; the values `true`, `01`, `0` and the empty value
leave verification on. -/
theorem insecure_only_on_request (w : World) (ircUrl : URL) (a : Alert) (c : Checked)
    (h1 : empty w.IRC_URL = false) (h2 : normalize w.flags = .ok a)
    (h3 : w.urlParse w.IRC_URL = some ircUrl) (h4 : checkUrl ircUrl = .ok c) :
    (∃ skip address, (run w).2.filter isDial = [Effect.dial c.ssl skip address] ∧
      (skip = true ↔ (ircUrl.Scheme = "ircs".toList ∧
        Get (ParseQuery ircUrl.RawQuery).values "insecure".toList = "1".toList))) ∧
    (c.ssl = true ↔ ircUrl.Scheme = "ircs".toList) ∧
    (∀ v : Str, '&' ∉ v → ';' ∉ v → '%' ∉ v → '+' ∉ v →
      (Get (ParseQuery ("insecure=".toList ++ v)).values "insecure".toList = "1".toList ↔
        v = "1".toList)) ∧
    Get (ParseQuery []).values "insecure".toList ≠ "1".toList ∧
    Get (ParseQuery "insecure=true".toList).values "insecure".toList ≠ "1".toList ∧
    Get (ParseQuery "insecure=01".toList).values "insecure".toList ≠ "1".toList ∧
    Get (ParseQuery "insecure=0".toList).values "insecure".toList ≠ "1".toList ∧
    Get (ParseQuery "insecure=".toList).values "insecure".toList ≠ "1".toList := by
  obtain ⟨_, hs, _, _, _, _, hq⟩ := checkUrl_ok ircUrl c h4
  have hssl : c.ssl = true ↔ ircUrl.Scheme = "ircs".toList := by
    rcases (schemeSwitch_some _ _ _).1 hs with ⟨e1, e2, _⟩ | ⟨e1, e2, _⟩
    · rw [e1, e2]
      exact ⟨fun h => absurd h (by simp), fun h => absurd h (by decide)⟩
    · rw [e1, e2]
      exact ⟨fun _ => rfl, fun _ => rfl⟩
  refine ⟨?_, hssl, ?_, by decide, by decide, by decide, by decide, by decide⟩
  · refine ⟨_, _, (run_dials w ircUrl a c h1 h2 h3 h4).1, ?_⟩
    rw [hq, Bool.and_eq_true, hssl, beq_iff_eq]
  · intro v v1 v2 v3 v4
    rw [Get_single_insecure v v1 v2 v3 v4]
    simp [Get]

/-- C11, two instances of `insecure_only_on_request`: the descriptor
`ircs://bot@irc.example/channel/alerts?insecure=1` is dialled with TLS and
without verification, and the value `yes` in place of `1` does not count
as `1`. -/
theorem insecure_only_on_request_witness :
    checkUrl urlInsecure = .ok checkedInsecure ∧
    (run (worldOf flagsHostDown urlInsecure)).2.filter isDial =
      [Effect.dial true true "irc.example:6697".toList] ∧
    Get (ParseQuery "insecure=yes".toList).values "insecure".toList ≠ "1".toList :=
  ⟨by decide, by decide,
   fun h => absurd
    (((insecure_only_on_request (worldOf flagsHostDown urlInsecure) urlInsecure alertHostDown
      checkedInsecure (by decide) (by decide) rfl (by decide)).2.2.1 "yes".toList
      (by decide) (by decide) (by decide) (by decide)).1 h) (by decide)⟩

/-! ## Scope and white space -/

/-- C16: when some service field is non-empty, replacing host.state and
host.output by any other values changes neither the normalised alert nor the
result of `run` (exit code, dial, frame written), so the frames of two such
alerts are identical; and an accepted alert is then a service report whose
state and output are service.state and service.output. -/
theorem service_frame_ignores_host_state (w : World) (x y : Str)
    (hs : ¬ (empty w.flags.sName = true ∧ empty w.flags.sDisplayName = true ∧
          empty w.flags.sActionUrl = true ∧ empty w.flags.sState = true ∧
          empty w.flags.sOutput = true)) :
    normalize { w.flags with hState := x, hOutput := y } = normalize w.flags ∧
    run { w with flags := { w.flags with hState := x, hOutput := y } } = run w ∧
    (∀ (a1 a2 : Alert) (ircUrl : URL) (c : Checked) (hostname when : Str),
      normalize w.flags = .ok a1 →
      normalize { w.flags with hState := x, hOutput := y } = .ok a2 →
      frame ircUrl c a1 hostname when = frame ircUrl c a2 hostname when) ∧
    (∀ a, normalize w.flags = .ok a →
      a.reportService = true ∧ a.state = w.flags.sState ∧ a.output = w.flags.sOutput) := by
  obtain ⟨hn, ha⟩ := normalize_service w.flags x y hs
  refine ⟨hn, ?_, ?_, ha⟩
  · exact run_congr w _ hn rfl rfl rfl rfl rfl rfl rfl rfl rfl
  · intro a1 a2 ircUrl c hostname when e1 e2
    rw [hn, e1] at e2
    injection e2 with e2
    rw [e2]

/-- C16, an instance of `service_frame_ignores_host_state`: the service
alert for `db` on `h1` with host.state `DOWN` and host.output `x` added
normalises to the same alert. -/
theorem service_frame_ignores_host_state_witness :
    normalize { flagsServiceDb with hState := "DOWN".toList, hOutput := "x".toList }
      = .ok alertServiceDb ∧
    run (worldOf { flagsServiceDb with hState := "DOWN".toList, hOutput := "x".toList }
      urlAlerts) = run (worldOf flagsServiceDb urlAlerts) :=
  ⟨((service_frame_ignores_host_state (worldOf flagsServiceDb urlAlerts) "DOWN".toList
      "x".toList (by decide)).1).trans (by decide),
   (service_frame_ignores_host_state (worldOf flagsServiceDb urlAlerts) "DOWN".toList
      "x".toList (by decide)).2.1⟩

/-- C18: `empty` is true exactly of the strings that hold only white space;
the accept/reject decision and the scope depend on the ten fields only
through `empty`; so they are unchanged when fields that hold only white
space are replaced by the empty string.  With service.name two spaces,
host.name=h1 and host.state=DOWN the alert is a host report. -/
theorem blank_fields_count_as_empty (f g : Flags) :
    (∀ s : Str, empty s = true ↔ ∀ c ∈ s, isSpace c = true) ∧
    (empty g.hName = empty f.hName → empty g.hDisplayName = empty f.hDisplayName →
      empty g.hActionUrl = empty f.hActionUrl → empty g.hState = empty f.hState →
      empty g.hOutput = empty f.hOutput → empty g.sName = empty f.sName →
      empty g.sDisplayName = empty f.sDisplayName → empty g.sActionUrl = empty f.sActionUrl →
      empty g.sState = empty f.sState → empty g.sOutput = empty f.sOutput →
      verdict g = verdict f) ∧
    (blanked f.hName g.hName → blanked f.hDisplayName g.hDisplayName →
      blanked f.hActionUrl g.hActionUrl → blanked f.hState g.hState →
      blanked f.hOutput g.hOutput → blanked f.sName g.sName →
      blanked f.sDisplayName g.sDisplayName → blanked f.sActionUrl g.sActionUrl →
      blanked f.sState g.sState → blanked f.sOutput g.sOutput →
      verdict g = verdict f) ∧
    verdict flagsBlankService = .ok false := by
  refine ⟨empty_iff, verdict_congr f g, ?_, by decide⟩
  intro h1 h2 h3 h4 h5 h6 h7 h8 h9 h10
  exact verdict_congr f g (blanked_empty _ _ h1) (blanked_empty _ _ h2) (blanked_empty _ _ h3)
    (blanked_empty _ _ h4) (blanked_empty _ _ h5) (blanked_empty _ _ h6)
    (blanked_empty _ _ h7) (blanked_empty _ _ h8) (blanked_empty _ _ h9)
    (blanked_empty _ _ h10)

/-- C18, an instance of `blank_fields_count_as_empty`: the flags with
service.name two spaces and the same flags with service.name empty get the
same decision, a host report. -/
theorem blank_fields_count_as_empty_witness :
    blanked flagsBlankService.sName [] ∧
    verdict { flagsBlankService with sName := [] } = verdict flagsBlankService ∧
    verdict { flagsBlankService with sName := [] } = .ok false :=
  have hb : blanked flagsBlankService.sName [] :=
    Or.inr ⟨by decide, rfl⟩
  have hv := (blank_fields_count_as_empty flagsBlankService
    { flagsBlankService with sName := [] }).2.2.1
    (Or.inl rfl) (Or.inl rfl) (Or.inl rfl) (Or.inl rfl) (Or.inl rfl) hb
    (Or.inl rfl) (Or.inl rfl) (Or.inl rfl) (Or.inl rfl)
  ⟨hb, hv, by decide⟩

/-! ## The composed message -/

/-- C12 (amended): for every accepted alert, when the local host name, the
host display name, the state and, in a service report, the service display
name hold no line feed, the third line of the message, after the banner and
one empty line, is the status line:
`<serviceDisplayName> on <hostDisplayName> is <state><punct>` with the state
service.state in a service report and `<hostDisplayName> is <state><punct>`
with the state host.state in a host report; `<punct>` is `.` exactly for the
states `UP` and `OK` and `!` for every other string.  Without the condition
on line feeds the message still is the banner, a line feed, a line feed, the
status text, a line feed and the rest. -/
theorem status_line (f : Flags) (a : Alert) (hostname when : Str)
    (h : normalize f = .ok a) (hh : '\n' ∉ hostname) (hd : '\n' ∉ a.hDisplayName)
    (hst : '\n' ∉ a.state) (hsd : a.reportService = true → '\n' ∉ a.sDisplayName) :
    (Split '\n' (compose a hostname when))[2]? = some (specStatus a) ∧
    (Split '\n' (compose a hostname when)).take 3 =
      [specBanner a hostname, [], specStatus a] ∧
    (a.reportService = true →
      specStatus a = a.sDisplayName ++ " on ".toList ++ a.hDisplayName ++ " is ".toList ++
        f.sState ++ pMark f.sState) ∧
    (a.reportService = false →
      specStatus a = a.hDisplayName ++ " is ".toList ++ f.hState ++ pMark f.hState) ∧
    (∀ s : Str, pMark s = ".".toList ↔ (s = "UP".toList ∨ s = "OK".toList)) ∧
    (∀ s : Str, pMark s = "!".toList ↔ ¬ (s = "UP".toList ∨ s = "OK".toList)) ∧
    pMark "CRITICAL".toList = "!".toList ∧ pMark "up".toList = "!".toList ∧
    pMark "Ok".toList = "!".toList ∧ pMark "UP ".toList = "!".toList ∧
    (∃ rest, compose a hostname when =
      specBanner a hostname ++ '\n' :: ([] ++ '\n' :: (specStatus a ++ '\n' :: rest))) := by
  obtain ⟨rest, hrest⟩ := compose_head a hostname when
  have hs := specStatus_clean a hd hst hsd
  have hsplit : Split '\n' (compose a hostname when) =
      specBanner a hostname :: [] :: specStatus a :: Split '\n' rest := by
    rw [hrest, Split_append_sep _ _ _ (specBanner_clean a hostname hh),
      Split_append_sep _ _ _ (by simp), Split_append_sep _ _ _ hs]
  obtain ⟨h1, h2⟩ := normalize_state f a h
  refine ⟨by rw [hsplit]; simp, by rw [hsplit]; rfl, ?_, ?_, pMark_dot, pMark_bang, by decide,
    by decide, by decide, by decide, ⟨rest, hrest⟩⟩
  · intro hr
    unfold specStatus
    rw [if_pos hr, (h1 hr).1]
  · intro hr
    unfold specStatus
    rw [if_neg (by simp [hr]), (h2 hr).1]

/-- C12, an instance of `status_line`: the host alert for `h1`, state `DOWN`,
on the machine `L`: the third line of the message is `h1 is DOWN!`. -/
theorem status_line_witness :
    normalize flagsHostDown = .ok alertHostDown ∧
    ('\n' ∉ "L".toList ∧ '\n' ∉ alertHostDown.hDisplayName ∧ '\n' ∉ alertHostDown.state) ∧
    (Split '\n' (compose alertHostDown "L".toList "T".toList))[2]? =
      some "h1 is DOWN!".toList :=
  ⟨by decide, by decide,
   (status_line flagsHostDown alertHostDown "L".toList "T".toList (by decide) (by decide)
     (by decide) (by decide) (by decide)).1⟩

/-- C12 as stated fails: for the accepted host alert of `h1`, state `DOWN`,
on a machine whose host name is `a LF b` the third line of the message is
empty, not the status line `h1 is DOWN!`; and for the same alert with the
host display name `web LF 01` on the machine `L` the third line is `web`,
not the status line. -/
theorem status_line_not_third :
    normalize flagsHostDown = .ok alertHostDown ∧
    (Split '\n' (compose alertHostDown "a\nb".toList "T".toList))[2]? = some [] ∧
    specStatus alertHostDown = "h1 is DOWN!".toList ∧
    normalize flagsTwoLineName = .ok alertTwoLineName ∧
    (Split '\n' (compose alertTwoLineName "L".toList "T".toList))[2]? = some "web".toList ∧
    specStatus alertTwoLineName = "web\n01 is DOWN!".toList := by
  decide

/-- C17: for every rendered message the first and the last of the lines the
loop ranges over are not empty, and a line that is not empty is written as
it stands, so the `.` placeholder is written for inner lines only.  When
the check output is empty or only white space, the last of these lines is
`Info:` and the frame ends with `PRIVMSG <recipient> :Info:` and `QUIT`. -/
theorem placeholder_only_inside (a : Alert) (hostname when : Str) :
    (∃ first rest, bodyLines (compose a hostname when) = first :: rest ∧ first ≠ []) ∧
    (∃ init last, bodyLines (compose a hostname when) = init ++ [last] ∧ last ≠ []) ∧
    (∀ r l : Str, l ≠ [] →
      writePrivmsg r [] l = "PRIVMSG ".toList ++ r ++ " :".toList ++ l ++ "\r\n".toList) ∧
    ((∀ c ∈ a.output, isSpace c = true) →
      (∃ init, bodyLines (compose a hostname when) = init ++ ["Info:".toList]) ∧
      ∀ user pass r : Str, ∃ pre,
        encode user pass r (compose a hostname when) =
          pre ++ ("PRIVMSG ".toList ++ r ++ " :Info:\r\n".toList) ++ "QUIT\r\n".toList) := by
  obtain ⟨h1, h2⟩ := bodyLines_ends (compose a hostname when)
    (TrimSpace_compose_ne_nil a hostname when)
  refine ⟨h1, h2, ?_, ?_⟩
  · intro r l hl
    cases l with
    | nil => exact absurd rfl hl
    | cons x xs => simp [writePrivmsg]
  · intro hw
    obtain ⟨init, hinit⟩ := bodyLines_blank_output a hostname when hw
    refine ⟨⟨init, hinit⟩, ?_⟩
    intro user pass r
    refine ⟨registration user pass ++ (init.map (writePrivmsg r [])).flatten, ?_⟩
    rw [encode_eq, hinit]
    simp [writePrivmsg, List.append_assoc]

/-- C17, an instance of `placeholder_only_inside`: the host alert for `h1`
without output; the last line the loop ranges over is `Info:`. -/
theorem placeholder_only_inside_witness :
    (∀ c ∈ ({ alertHostDown with output := " \n".toList } : Alert).output, isSpace c = true) ∧
    ∃ init, bodyLines (compose { alertHostDown with output := " \n".toList } "L".toList
      "T".toList) = init ++ ["Info:".toList] :=
  ⟨by decide,
   ((placeholder_only_inside { alertHostDown with output := " \n".toList } "L".toList
      "T".toList).2.2.2 (by decide)).1⟩

/-! ## End to end -/

/-- C14 (amended): for the descriptor `irc://bot@irc.example/channel/alerts`,
the host alert of `h1` in state `DOWN` with output `ping failed`, and every
local host name `L` that holds no CR and no LF (the time text being one
line): the frame starts with `NICK bot CR LF`, ends with `QUIT CR LF`, and
among its lines `PRIVMSG #alerts :***** Host monitoring on L *****` occurs
exactly once and is the first PRIVMSG line. -/
theorem end_to_end_host_alert (L when : Str) (hL : '\r' ∉ L ∧ '\n' ∉ L) (hw : '\n' ∉ when) :
    checkUrl urlAlerts = .ok checkedAlerts ∧
    normalize flagsHostDown = .ok alertHostDown ∧
    "NICK bot\r\n".toList <+: frame urlAlerts checkedAlerts alertHostDown L when ∧
    "QUIT\r\n".toList <:+ frame urlAlerts checkedAlerts alertHostDown L when ∧
    (splitCRLF (frame urlAlerts checkedAlerts alertHostDown L when)).count (bannerLine L) = 1 ∧
    (splitCRLF (frame urlAlerts checkedAlerts alertHostDown L when)).find?
      (fun l => "PRIVMSG ".toList.isPrefixOf l) = some (bannerLine L) := by
  have hlines := frame_hostDown_lines L when hL.1 hL.2 hw
  refine ⟨by decide, by decide, ?_, ?_, ?_, ?_⟩
  · have hf : frame urlAlerts checkedAlerts alertHostDown L when =
        encode "bot".toList [] "#alerts".toList (compose alertHostDown L when) := rfl
    have hreg : registration "bot".toList [] =
        "NICK bot\r\n".toList ++ "USER bot 0.0.0.0 0.0.0.0 bot\r\n".toList := by decide
    rw [hf, encode_eq, hreg]
    exact ⟨"USER bot 0.0.0.0 0.0.0.0 bot\r\n".toList ++
      (((bodyLines (compose alertHostDown L when)).map
        (writePrivmsg "#alerts".toList [])).flatten ++ "QUIT\r\n".toList),
      by simp only [List.append_assoc]⟩
  · have hf : frame urlAlerts checkedAlerts alertHostDown L when =
        encode "bot".toList [] "#alerts".toList (compose alertHostDown L when) := rfl
    rw [hf, encode_eq]
    exact ⟨_, rfl⟩
  · rw [hlines]
    simp [bannerLine, List.count_cons]
  · have hb : "PRIVMSG ".toList.isPrefixOf (bannerLine L) = true := by
      rw [List.isPrefixOf_iff_prefix]
      exact ⟨"#alerts :***** Host monitoring on ".toList ++ L ++ " *****".toList, by
        unfold bannerLine
        rw [show "PRIVMSG #alerts :***** Host monitoring on ".toList =
          "PRIVMSG ".toList ++ "#alerts :***** Host monitoring on ".toList from by decide]
        simp only [List.append_assoc]⟩
    rw [hlines, List.find?_cons_of_neg _ (by decide), List.find?_cons_of_neg _ (by decide),
      List.find?_cons_of_pos _ hb]

/-- C14, an instance of `end_to_end_host_alert`: the local host name `mon1`. -/
theorem end_to_end_host_alert_witness :
    ('\r' ∉ "mon1".toList ∧ '\n' ∉ "mon1".toList) ∧
    (splitCRLF (frame urlAlerts checkedAlerts alertHostDown "mon1".toList "T".toList)).count
      (bannerLine "mon1".toList) = 1 :=
  ⟨by decide,
   (end_to_end_host_alert "mon1".toList "T".toList (by decide) (by decide)).2.2.2.2.1⟩

/-- C14 as stated fails for a local host name with a line feed: with the
name `a LF b` the banner is cut into two PRIVMSG lines, and the line
`PRIVMSG #alerts :***** Host monitoring on a LF b *****` is not in the
frame. -/
theorem end_to_end_host_alert_two_lines :
    checkUrl urlAlerts = .ok checkedAlerts ∧
    normalize flagsHostDown = .ok alertHostDown ∧
    (splitCRLF (frame urlAlerts checkedAlerts alertHostDown "a\nb".toList "T".toList)).count
      (bannerLine "a\nb".toList) = 0 ∧
    (splitCRLF (frame urlAlerts checkedAlerts alertHostDown "a\nb".toList "T".toList)).take 4 =
      ["NICK bot".toList, "USER bot 0.0.0.0 0.0.0.0 bot".toList,
       "PRIVMSG #alerts :***** Host monitoring on a".toList,
       "PRIVMSG #alerts :b *****".toList] := by
  decide

end NotifyIrc
